import Mathlib

/-!
Verification of the claude-rag-plugin repository: a shallow embedding, in Lean,
of the document chunker, the ingestion service's per-file processing, the
vector-store state machine with its metadata flattening, the hybrid retriever
(reciprocal rank fusion and LLM re-ranking), the orchestrator's planning and
execution, and the PDF fetcher's download guards.  Machine integers are
modelled as Nat, JavaScript's fractional arithmetic as exact rationals,
fallible operations as Except/Option, and the external SHA-256 content hash
as an explicit function parameter.
-/

set_option maxRecDepth 10000

/-! ## Data model (src/core/types.ts) -/

/-- DocumentMetadata from src/core/types.ts.  Optional fields are Options;
numeric fields are Nat, except `totalChunks` which is Int because the PDF
page chunker uses a `-1` placeholder before finalizing it. -/
structure DocumentMetadata where
  filePath : String
  fileName : String
  fileType : String
  language : Option String
  chunkIndex : Nat
  totalChunks : Int
  startLine : Option Nat
  endLine : Option Nat
  createdAt : String
  updatedAt : String
  hash : String
  projectName : Option String
  tags : Option (List String)
deriving DecidableEq, Repr

/-- DocumentChunk from src/core/types.ts (`tokenCount` is an estimate). -/
structure DocumentChunk where
  id : String
  content : String
  metadata : DocumentMetadata
  tokenCount : Nat
deriving DecidableEq, Repr

/-- Document from src/core/types.ts (the embedding vector is irrelevant to
the verified claims and is omitted from the shallow embedding). -/
structure Document where
  id : String
  content : String
  metadata : DocumentMetadata
deriving DecidableEq, Repr

/-- RetrievalResult from src/core/types.ts; `score` is JavaScript number
arithmetic modelled as an exact rational. -/
structure RetrievalResult where
  document : Document
  score : ℚ
deriving DecidableEq, Repr

/-! ## Hashing (src/utils/hashing.js)

`hashContent` is SHA-256, an external cryptographic primitive; the embedding
takes it as an explicit function parameter `hash : String → String`.
`generateDocumentId(path, chunkIndex)` hashes `"<path>:<chunkIndex>"` and
truncates to 16 characters. -/

def generateDocumentId (hash : String → String) (path : String) (chunkIndex : Nat) : String :=
  String.mk ((hash (path ++ ":" ++ toString chunkIndex)).toList.take 16)

/-! ## Document Chunker (src/embeddings/chunker.ts) -/

/-- LineInfo from chunker.ts: a line's content plus its 1-based number. -/
structure LineInfo where
  content : String
  lineNumber : Nat
deriving DecidableEq, Repr

/-- The raw chunk record `{content, startLine, endLine}` accumulated by the
text/markdown/code chunking loops. -/
structure RawChunk where
  content : String
  startLine : Nat
  endLine : Nat
deriving DecidableEq, Repr

/-- JavaScript `s.split(sep)` for a one-character separator: every
separator occurrence cuts, empty pieces are kept, the result is never
empty. -/
def jsSplit (sep : Char) (s : String) : List String :=
  (s.toList.splitOn sep).map (fun cs => String.mk cs)

/-- JavaScript `parts.join(sep)` for a one-character separator. -/
def jsJoin (sep : Char) (parts : List String) : String :=
  String.mk (List.intercalate [sep] (parts.map String.toList))

/-- JavaScript `s.trim()` (strip whitespace from both ends), at the
character-list level so it reduces in the kernel. -/
def jsTrim (s : String) : String :=
  String.mk (((s.toList.dropWhile Char.isWhitespace).reverse.dropWhile
    Char.isWhitespace).reverse)

/-- JavaScript `s.toLowerCase()` at the character-list level. -/
def jsToLower (s : String) : String :=
  String.mk (s.toList.map Char.toLower)

/-- JavaScript `s.startsWith(pre)` at the character-list level. -/
def jsStartsWith (s pre : String) : Bool :=
  pre.toList.isPrefixOf s.toList

/-- A digit run's numeric value. -/
def digitsToNat (ds : List Char) : Nat :=
  ds.foldl (fun n c => n * 10 + (c.toNat - '0'.toNat)) 0

/-- `content.split('\n')` with 1-based line numbers attached. -/
def toLineInfos (content : String) : List LineInfo :=
  (jsSplit '\n' content).enum.map (fun p => ⟨p.2, p.1 + 1⟩)

/-- Close the accumulated lines into one raw chunk (join with newlines;
start line as tracked; end line = last accumulated line's number). -/
def closeChunk (cur : List LineInfo) (chunkStartLine : Nat) : RawChunk :=
  { content := String.intercalate "\n" (cur.map (·.content))
    startLine := chunkStartLine
    endLine := ((cur.getLast?).map (·.lineNumber)).getD 0 }

/-- getOverlapLines walking backward from the end of a closed chunk: keep
whole lines while adding one more stays within `chunkOverlap` characters.
`rev` is the closed chunk reversed. -/
def overlapGo (chunkOverlap : Nat) : List LineInfo → Nat → List LineInfo → List LineInfo
  | [], _, acc => acc
  | l :: rest, size, acc =>
      if size + l.content.length + 1 > chunkOverlap then acc
      else overlapGo chunkOverlap rest (size + l.content.length + 1) (l :: acc)

/-- DocumentChunker.getOverlapLines. -/
def getOverlapLines (chunkOverlap : Nat) (chunk : List LineInfo) : List LineInfo :=
  if chunkOverlap = 0 then []
  else overlapGo chunkOverlap chunk.reverse 0 []

/-- Sum of `line.length + 1` over a list of lines (the loop's running size
of the overlap seed). -/
def linesSize (ls : List LineInfo) : Nat :=
  ls.foldl (fun s l => s + l.content.length + 1) 0

/-- The chunkText loop: accumulate lines, force-close once the accumulated
size reaches `chunkSize`, seed the next chunk with the overlap tail. -/
def chunkTextGo (chunkSize chunkOverlap : Nat) :
    List LineInfo → List LineInfo → Nat → Nat → List RawChunk → List RawChunk
  | [], cur, _, chunkStartLine, acc =>
      if cur.isEmpty then acc else acc ++ [closeChunk cur chunkStartLine]
  | l :: rest, cur, curSize, chunkStartLine, acc =>
      let cur' := cur ++ [l]
      let size' := curSize + (l.content.length + 1)
      if size' ≥ chunkSize then
        let acc' := acc ++ [closeChunk cur' chunkStartLine]
        let ov := getOverlapLines chunkOverlap cur'
        let start' := match ov.head? with
          | some h => h.lineNumber
          | none => l.lineNumber + 1
        chunkTextGo chunkSize chunkOverlap rest ov (linesSize ov) start' acc'
      else
        chunkTextGo chunkSize chunkOverlap rest cur' size' chunkStartLine acc

/-- DocumentChunker.chunkText. -/
def chunkText (chunkSize chunkOverlap : Nat) (content : String) : List RawChunk :=
  chunkTextGo chunkSize chunkOverlap (toLineInfos content) [] 0 1 []

/-- A markdown heading line: 1 to 6 leading `#` followed by a whitespace
character (the regex `^#{1,6}\s`). -/
def isHeadingLine (line : String) : Bool :=
  let cs := line.toList
  let hashes := cs.takeWhile (· = '#')
  decide (1 ≤ hashes.length) && decide (hashes.length ≤ 6) &&
    match cs.drop hashes.length with
    | c :: _ => c.isWhitespace
    | [] => false

/-- The chunkMarkdown loop: track fenced-code-block state; a heading outside
a code block splits once the chunk holds at least 30% of `chunkSize`
(`currentSize >= chunkSize * 0.3`, i.e. `10 * currentSize >= 3 * chunkSize`);
force-close at `chunkSize` only outside code blocks. -/
def chunkMarkdownGo (chunkSize chunkOverlap : Nat) :
    List LineInfo → List LineInfo → Nat → Nat → Bool → List RawChunk → List RawChunk
  | [], cur, _, chunkStartLine, _, acc =>
      if cur.isEmpty then acc else acc ++ [closeChunk cur chunkStartLine]
  | l :: rest, cur, curSize, chunkStartLine, inCodeBlock, acc =>
      let inCB := if jsStartsWith (jsTrim l.content) "```" then !inCodeBlock else inCodeBlock
      let headClose :=
        (isHeadingLine l.content ∧ !inCB) ∧ ¬cur.isEmpty ∧ 10 * curSize ≥ 3 * chunkSize
      let acc₁ := if headClose then acc ++ [closeChunk cur chunkStartLine] else acc
      let cur₁ : List LineInfo := if headClose then [] else cur
      let size₁ := if headClose then 0 else curSize
      let start₁ := if headClose then l.lineNumber else chunkStartLine
      let cur₂ := cur₁ ++ [l]
      let size₂ := size₁ + (l.content.length + 1)
      if size₂ ≥ chunkSize ∧ !inCB then
        let acc₂ := acc₁ ++ [closeChunk cur₂ start₁]
        let ov := getOverlapLines chunkOverlap cur₂
        let start₂ := match ov.head? with
          | some h => h.lineNumber
          | none => l.lineNumber + 1
        chunkMarkdownGo chunkSize chunkOverlap rest ov (linesSize ov) start₂ inCB acc₂
      else
        chunkMarkdownGo chunkSize chunkOverlap rest cur₂ size₂ start₁ inCB acc₁

/-- DocumentChunker.chunkMarkdown. -/
def chunkMarkdown (chunkSize chunkOverlap : Nat) (content : String) : List RawChunk :=
  chunkMarkdownGo chunkSize chunkOverlap (toLineInfos content) [] 0 1 false []

/-- findCodeBoundaries: indexes of lines whose trimmed form matches one of
the fixed top-level declaration regexes; the regex battery itself is an
external pattern test abstracted as the parameter `pat`. -/
def findCodeBoundaries (pat : String → Bool) (lines : List LineInfo) : List Nat :=
  lines.enum.filterMap (fun p => if pat (jsTrim p.2.content) then some p.1 else none)

/-- The chunkCode loop: close at a boundary line once the chunk holds at
least 50% of `chunkSize` (`currentSize >= chunkSize * 0.5`, i.e.
`2 * currentSize >= chunkSize`), and force-close at `chunkSize`.  `i` is the
0-based index of the current line. -/
def chunkCodeGo (chunkSize chunkOverlap : Nat) (boundaries : List Nat) :
    List LineInfo → Nat → List LineInfo → Nat → Nat → List RawChunk → List RawChunk
  | [], _, cur, _, chunkStartLine, acc =>
      if cur.isEmpty then acc else acc ++ [closeChunk cur chunkStartLine]
  | l :: rest, i, cur, curSize, chunkStartLine, acc =>
      let boundaryClose := boundaries.contains i ∧ ¬cur.isEmpty ∧ 2 * curSize ≥ chunkSize
      let acc₁ := if boundaryClose then acc ++ [closeChunk cur chunkStartLine] else acc
      let cur₁ := if boundaryClose then getOverlapLines chunkOverlap cur else cur
      let size₁ := if boundaryClose then linesSize cur₁ else curSize
      let start₁ :=
        if boundaryClose then
          match cur₁.head? with
          | some h => h.lineNumber
          | none => i + 1
        else chunkStartLine
      let cur₂ := cur₁ ++ [l]
      let size₂ := size₁ + (l.content.length + 1)
      if size₂ ≥ chunkSize then
        let acc₂ := acc₁ ++ [closeChunk cur₂ start₁]
        let ov := getOverlapLines chunkOverlap cur₂
        let start₂ := match ov.head? with
          | some h => h.lineNumber
          | none => i + 2
        chunkCodeGo chunkSize chunkOverlap boundaries rest (i + 1) ov (linesSize ov) start₂ acc₂
      else
        chunkCodeGo chunkSize chunkOverlap boundaries rest (i + 1) cur₂ size₂ start₁ acc₁

/-- DocumentChunker.chunkCode: boundary-aware chunking, falling back to
plain-text chunking when no boundary is found anywhere in the file. -/
def chunkCode (pat : String → Bool) (chunkSize chunkOverlap : Nat) (content : String) :
    List RawChunk :=
  let lines := toLineInfos content
  let boundaries := findCodeBoundaries pat lines
  if boundaries.length > 0 then
    chunkCodeGo chunkSize chunkOverlap boundaries lines 0 [] 0 1 []
  else
    chunkText chunkSize chunkOverlap content

/-- DocumentChunker.detectLanguage: fixed extension → language tag table. -/
def detectLanguage (fileType : String) : Option String :=
  let ft := jsToLower fileType
  if ft = ".ts" ∨ ft = ".tsx" then some "typescript"
  else if ft = ".js" ∨ ft = ".jsx" then some "javascript"
  else if ft = ".py" then some "python"
  else if ft = ".go" then some "go"
  else if ft = ".rs" then some "rust"
  else if ft = ".java" then some "java"
  else if ft = ".rb" then some "ruby"
  else if ft = ".php" then some "php"
  else if ft = ".cs" then some "csharp"
  else if ft = ".cpp" ∨ ft = ".hpp" then some "cpp"
  else if ft = ".c" ∨ ft = ".h" then some "c"
  else if ft = ".swift" then some "swift"
  else if ft = ".kt" then some "kotlin"
  else if ft = ".scala" then some "scala"
  else if ft = ".sql" then some "sql"
  else if ft = ".sh" ∨ ft = ".bash" ∨ ft = ".zsh" then some "bash"
  else if ft = ".md" ∨ ft = ".mdx" then some "markdown"
  else if ft = ".html" then some "html"
  else if ft = ".css" then some "css"
  else if ft = ".scss" then some "scss"
  else if ft = ".sass" then some "sass"
  else if ft = ".less" then some "less"
  else if ft = ".json" then some "json"
  else if ft = ".yaml" ∨ ft = ".yml" then some "yaml"
  else if ft = ".toml" then some "toml"
  else if ft = ".xml" then some "xml"
  else none

/-- DocumentChunker.isCodeFile. -/
def isCodeFile (fileType : String) : Bool :=
  [".ts", ".tsx", ".js", ".jsx", ".py", ".go", ".rs", ".java",
   ".rb", ".php", ".cs", ".cpp", ".c", ".h", ".hpp", ".swift",
   ".kt", ".scala", ".sh", ".bash", ".zsh"].contains (jsToLower fileType)

/-- DocumentChunker.isMarkdownFile. -/
def isMarkdownFile (fileType : String) : Bool :=
  [".md", ".mdx"].contains (jsToLower fileType)

/-- Token estimate: `ceil(length / 4)`. -/
def estimateTokenCount (text : String) : Nat :=
  (text.length + 3) / 4

/-- DocumentChunker.chunkDocument: choose a strategy by file type, then
attach full metadata to each raw chunk.  `hash` is the content hash
function, `pat` the code-boundary pattern test and `now` the current
ISO timestamp, all external inputs of the source function. -/
def chunkDocument (hash : String → String) (pat : String → Bool) (now : String)
    (chunkSize chunkOverlap : Nat) (content filePath fileName fileType : String)
    (projectName : Option String) : List DocumentChunk :=
  let language := detectLanguage fileType
  let rawChunks :=
    if isCodeFile fileType then chunkCode pat chunkSize chunkOverlap content
    else if isMarkdownFile fileType then chunkMarkdown chunkSize chunkOverlap content
    else chunkText chunkSize chunkOverlap content
  rawChunks.enum.map (fun p =>
    { id := generateDocumentId hash filePath p.1
      content := p.2.content
      metadata :=
        { filePath := filePath
          fileName := fileName
          fileType := fileType
          language := language
          chunkIndex := p.1
          totalChunks := rawChunks.length
          startLine := some p.2.startLine
          endLine := some p.2.endLine
          createdAt := now
          updatedAt := now
          hash := hash p.2.content
          projectName := projectName
          tags := none }
      tokenCount := estimateTokenCount p.2.content })

/-! ## PDF chunking (src/embeddings/chunker.ts, chunkPDFDocument et al.) -/

/-- Helper: dropWhile never lengthens a list. -/
theorem dropWhileLenLe (p : α → Bool) (l : List α) : (l.dropWhile p).length ≤ l.length := by
  induction l with
  | nil => simp [List.dropWhile]
  | cons a l ih =>
      simp only [List.dropWhile]
      cases p a <;> simp <;> omega

/-- Helper: takeWhile never lengthens a list. -/
theorem takeWhileLenLe (p : α → Bool) (l : List α) : (l.takeWhile p).length ≤ l.length := by
  induction l with
  | nil => simp [List.takeWhile]
  | cons a l ih =>
      simp only [List.takeWhile]
      cases p a <;> simp <;> omega

/-- Helper: takeWhile and the matching drop partition a list's length. -/
theorem takeWhileDropLen (p : α → Bool) (l : List α) :
    (l.takeWhile p).length + (l.drop (l.takeWhile p).length).length = l.length := by
  have h := takeWhileLenLe p l
  simp [List.length_drop]
  omega

/-- The raw PDF chunk record `{content, startPage, endPage}`. -/
structure PDFRawChunk where
  content : String
  startPage : Nat
  endPage : Nat
deriving DecidableEq, Repr

/-- PDFPage from the PDF fetcher. -/
structure PDFPage where
  pageNumber : Nat
  content : String
deriving DecidableEq, Repr

/-- Splitting on the regex `\n\n+` (runs of two or more newlines);
fuel-bounded structural recursion (fuel at least the character count always
suffices, each step consuming at least one character). -/
def splitParasGo : Nat → List Char → List Char → List (List Char) → List (List Char)
  | _, [], cur, acc => acc ++ [cur.reverse]
  | 0, _ :: _, cur, acc => acc ++ [cur.reverse]
  | fuel + 1, '\n' :: '\n' :: rest, cur, acc =>
      splitParasGo fuel (rest.dropWhile (· = '\n')) [] (acc ++ [cur.reverse])
  | fuel + 1, c :: rest, cur, acc => splitParasGo fuel rest (c :: cur) acc

/-- `content.split(/\n\n+/)` as on a JavaScript string. -/
def splitParagraphs (content : String) : List String :=
  (splitParasGo (content.toList.length + 1) content.toList [] []).map
    (fun cs => String.mk cs)

/-- Splitting on the regex `\s+` (runs of whitespace); a leading or trailing
separator contributes an empty element, as in JavaScript `split`;
fuel-bounded structural recursion. -/
def splitWsGo : Nat → List Char → List Char → List (List Char) → List (List Char)
  | _, [], cur, acc => acc ++ [cur.reverse]
  | 0, _ :: _, cur, acc => acc ++ [cur.reverse]
  | fuel + 1, c :: rest, cur, acc =>
      if c.isWhitespace then
        splitWsGo fuel (rest.dropWhile Char.isWhitespace) [] (acc ++ [cur.reverse])
      else splitWsGo fuel rest (c :: cur) acc

/-- `text.split(/\s+/)` as on a JavaScript string. -/
def splitWsJS (text : String) : List String :=
  (splitWsGo (text.toList.length + 1) text.toList [] []).map (fun cs => String.mk cs)

/-- The backward word walk of DocumentChunker.getTextOverlap
(`rev` is the word list reversed). -/
def textOverlapGo (chunkOverlap : Nat) : List String → Nat → String → String
  | [], _, acc => acc
  | w :: rest, size, acc =>
      if size + w.length + 1 > chunkOverlap then acc
      else textOverlapGo chunkOverlap rest (size + w.length + 1) (w ++ " " ++ acc)

/-- DocumentChunker.getTextOverlap: a word-level overlap tail of roughly
`chunkOverlap` characters. -/
def getTextOverlap (chunkOverlap : Nat) (text : String) : String :=
  if chunkOverlap = 0 then ""
  else jsTrim (textOverlapGo chunkOverlap (splitWsJS text).reverse 0 "")

/-- The chunkPDFText loop over blank-line-delimited paragraphs. -/
def chunkPDFTextGo (chunkSize chunkOverlap : Nat) :
    List String → String → Nat → Nat → List PDFRawChunk → List PDFRawChunk
  | [], curContent, _, chunkCount, chunks =>
      if jsTrim curContent ≠ "" then
        chunks ++ [⟨jsTrim curContent, chunkCount + 1, chunkCount + 1⟩]
      else chunks
  | p :: rest, curContent, curSize, chunkCount, chunks =>
      let paraSize := p.length
      if curSize + paraSize > chunkSize ∧ jsTrim curContent ≠ "" then
        let chunks' := chunks ++ [⟨jsTrim curContent, chunkCount + 1, chunkCount + 1⟩]
        let ov := getTextOverlap chunkOverlap curContent
        let cc := ov ++ "\n\n" ++ p
        chunkPDFTextGo chunkSize chunkOverlap rest cc cc.length (chunkCount + 1) chunks'
      else
        let cc := curContent ++ (if curContent ≠ "" then "\n\n" else "") ++ p
        chunkPDFTextGo chunkSize chunkOverlap rest cc (curSize + paraSize + 2) chunkCount chunks

/-- DocumentChunker.chunkPDFText: paragraph-based chunking for PDFs without
page information. -/
def chunkPDFText (chunkSize chunkOverlap : Nat) (content : String) : List PDFRawChunk :=
  let paragraphs := (splitParagraphs content).filter (fun p => jsTrim p ≠ "")
  chunkPDFTextGo chunkSize chunkOverlap paragraphs "" 0 0 []

/-- A sentence terminator for the regex `[^.!?]+[.!?]+`. -/
def isSentTerm (c : Char) : Bool :=
  c = '.' || c = '!' || c = '?'

/-- All matches of the global regex `[^.!?]+[.!?]+` (runs of non-terminator
characters followed by a run of terminators); unterminated trailing text
yields no match; fuel-bounded structural recursion. -/
def sentGo : Nat → List Char → List String
  | _, [] => []
  | 0, _ :: _ => []
  | fuel + 1, c :: rest =>
      if isSentTerm c then sentGo fuel ((c :: rest).dropWhile isSentTerm)
      else
        let part1 := (c :: rest).takeWhile (fun x => ¬isSentTerm x)
        let rest1 := (c :: rest).drop part1.length
        match rest1 with
        | [] => []
        | _ :: _ =>
            let part2 := rest1.takeWhile isSentTerm
            String.mk (part1 ++ part2) :: sentGo fuel (rest1.drop part2.length)

/-- `paragraph.match(/[^.!?]+[.!?]+/g) || [paragraph]`. -/
def matchSentences (paragraph : String) : List String :=
  match sentGo (paragraph.toList.length + 1) paragraph.toList with
  | [] => [paragraph]
  | ms => ms

/-- The sentence-packing inner loop of chunkLargePage: state is
(currentContent, currentSize, chunks so far on this page). -/
def sentFold (chunkSize pageNumber : Nat)
    (st : String × Nat × List PDFRawChunk) (s : String) : String × Nat × List PDFRawChunk :=
  let (cc, size, chunks) := st
  if size + s.length > chunkSize ∧ jsTrim cc ≠ "" then
    (s, s.length, chunks ++ [⟨jsTrim cc, pageNumber, pageNumber⟩])
  else (cc ++ " " ++ s, size + s.length + 1, chunks)

/-- The paragraph loop of DocumentChunker.chunkLargePage. -/
def chunkLargePageGo (chunkSize pageNumber : Nat) :
    List String → String → Nat → List PDFRawChunk → List PDFRawChunk
  | [], cc, _, chunks =>
      if jsTrim cc ≠ "" then chunks ++ [⟨jsTrim cc, pageNumber, pageNumber⟩] else chunks
  | p :: rest, cc, size, chunks =>
      if p.length > chunkSize then
        let chunks₁ := if jsTrim cc ≠ "" then chunks ++ [⟨jsTrim cc, pageNumber, pageNumber⟩]
          else chunks
        let cc₁ := if jsTrim cc ≠ "" then "" else cc
        let size₁ := if jsTrim cc ≠ "" then 0 else size
        let (cc₂, size₂, chunks₂) :=
          (matchSentences p).foldl (sentFold chunkSize pageNumber) (cc₁, size₁, chunks₁)
        chunkLargePageGo chunkSize pageNumber rest cc₂ size₂ chunks₂
      else if size + p.length > chunkSize then
        let chunks₁ := if jsTrim cc ≠ "" then chunks ++ [⟨jsTrim cc, pageNumber, pageNumber⟩]
          else chunks
        chunkLargePageGo chunkSize pageNumber rest p p.length chunks₁
      else
        chunkLargePageGo chunkSize pageNumber rest (cc ++ "\n\n" ++ p) (size + p.length + 2) chunks

/-- DocumentChunker.chunkLargePage: split a too-large page first by
blank-line paragraphs, then any still-too-large paragraph by sentences. -/
def chunkLargePage (chunkSize : Nat) (content : String) (pageNumber : Nat) :
    List PDFRawChunk :=
  let paragraphs := (splitParagraphs content).filter (fun p => jsTrim p ≠ "")
  chunkLargePageGo chunkSize pageNumber paragraphs "" 0 []

/-- A PDF chunk as constructed inline by chunkPDFByPages: content is stored
trimmed where noted, while hash and token estimate use the raw accumulated
content; `totalChunks` is the `-1` placeholder rewritten at the end. -/
def mkPDFChunk (hash : String → String) (now sourcePath documentName : String)
    (projectName : Option String) (chunkIndex : Nat)
    (stored raw : String) (startPage endPage : Nat) : DocumentChunk :=
  { id := generateDocumentId hash sourcePath chunkIndex
    content := stored
    metadata :=
      { filePath := sourcePath
        fileName := documentName
        fileType := ".pdf"
        language := some "pdf"
        chunkIndex := chunkIndex
        totalChunks := -1
        startLine := some startPage
        endLine := some endPage
        createdAt := now
        updatedAt := now
        hash := hash raw
        projectName := projectName
        tags := none }
    tokenCount := estimateTokenCount raw }

/-- The page loop of DocumentChunker.chunkPDFByPages: build one chunk per
run of consecutive pages under `chunkSize`, splitting oversized pages via
chunkLargePage. -/
def byPagesGo (hash : String → String) (now : String) (chunkSize : Nat)
    (sourcePath documentName : String) (projectName : Option String) :
    List PDFPage → Option PDFRawChunk → Nat → List DocumentChunk → List DocumentChunk
  | [], cur, _, chunks =>
      match cur with
      | some c =>
          if jsTrim c.content ≠ "" then
            chunks ++ [mkPDFChunk hash now sourcePath documentName projectName
              chunks.length (jsTrim c.content) c.content c.startPage c.endPage]
          else chunks
      | none => chunks
  | page :: rest, cur, size, chunks =>
      let pageContent := jsTrim page.content
      if pageContent = "" then
        byPagesGo hash now chunkSize sourcePath documentName projectName rest cur size chunks
      else
        let pageSize := pageContent.length
        if pageSize > chunkSize then
          let flush : Bool := match cur with
            | some c => jsTrim c.content != ""
            | none => false
          let chunks₁ :=
            match cur with
            | some c =>
                if jsTrim c.content ≠ "" then
                  chunks ++ [mkPDFChunk hash now sourcePath documentName projectName
                    chunks.length (jsTrim c.content) c.content c.startPage c.endPage]
                else chunks
            | none => chunks
          let cur₁ := if flush then none else cur
          let size₁ := if flush then 0 else size
          let subChunks := chunkLargePage chunkSize pageContent page.pageNumber
          let chunks₂ := subChunks.foldl
            (fun acc sc => acc ++ [mkPDFChunk hash now sourcePath documentName projectName
              acc.length sc.content sc.content sc.startPage sc.endPage]) chunks₁
          byPagesGo hash now chunkSize sourcePath documentName projectName rest cur₁ size₁ chunks₂
        else
          let flush := cur.isSome ∧ size + pageSize > chunkSize
          let chunks₁ :=
            match cur with
            | some c =>
                if size + pageSize > chunkSize then
                  chunks ++ [mkPDFChunk hash now sourcePath documentName projectName
                    chunks.length (jsTrim c.content) c.content c.startPage c.endPage]
                else chunks
            | none => chunks
          let cur₁ := if flush then none else cur
          let size₁ := if flush then 0 else size
          match cur₁ with
          | none =>
              byPagesGo hash now chunkSize sourcePath documentName projectName rest
                (some ⟨pageContent, page.pageNumber, page.pageNumber⟩) pageSize chunks₁
          | some c =>
              byPagesGo hash now chunkSize sourcePath documentName projectName rest
                (some ⟨c.content ++ "\n\n" ++ pageContent, c.startPage, page.pageNumber⟩)
                (size₁ + pageSize + 2) chunks₁

/-- DocumentChunker.chunkPDFByPages, including the final pass that rewrites
every chunk's `totalChunks` placeholder to the finished count. -/
def chunkPDFByPages (hash : String → String) (now : String) (chunkSize : Nat)
    (pages : List PDFPage) (sourcePath documentName : String)
    (projectName : Option String) : List DocumentChunk :=
  let chunks := byPagesGo hash now chunkSize sourcePath documentName projectName pages none 0 []
  chunks.map (fun c =>
    { c with metadata := { c.metadata with totalChunks := (chunks.length : Int) } })

/-- DocumentChunker.chunkPDFDocument: page-based chunking when page
information is available, else paragraph-based chunking over the flat text. -/
def chunkPDFDocument (hash : String → String) (now : String)
    (chunkSize chunkOverlap : Nat) (content sourcePath documentName : String)
    (projectName : Option String) (pages : Option (List PDFPage)) : List DocumentChunk :=
  match pages with
  | some ps =>
      if ps.length > 0 then
        chunkPDFByPages hash now chunkSize ps sourcePath documentName projectName
      else
        chunkPDFDocumentText hash now chunkSize chunkOverlap content sourcePath
          documentName projectName
  | none =>
      chunkPDFDocumentText hash now chunkSize chunkOverlap content sourcePath
        documentName projectName
where
  /-- The no-page-information branch of chunkPDFDocument. -/
  chunkPDFDocumentText (hash : String → String) (now : String)
      (chunkSize chunkOverlap : Nat) (content sourcePath documentName : String)
      (projectName : Option String) : List DocumentChunk :=
    let rawChunks := chunkPDFText chunkSize chunkOverlap content
    rawChunks.enum.map (fun p =>
      { id := generateDocumentId hash sourcePath p.1
        content := p.2.content
        metadata :=
          { filePath := sourcePath
            fileName := documentName
            fileType := ".pdf"
            language := some "pdf"
            chunkIndex := p.1
            totalChunks := (rawChunks.length : Int)
            startLine := some p.2.startPage
            endLine := some p.2.endPage
            createdAt := now
            updatedAt := now
            hash := hash p.2.content
            projectName := projectName
            tags := none }
        tokenCount := estimateTokenCount p.2.content })

/-- The chunk list ingestPDFFromURL passes to the vector store
(ingestion.js lines 232-254): chunkPDFDocument output with every chunk's
metadata hash overwritten by the whole parsed document's hash and the tags
stamped with the PDF markers. -/
def pdfIngestChunks (hash : String → String) (now : String)
    (chunkSize chunkOverlap : Nat) (pdfText : String) (pages : List PDFPage)
    (url documentName : String) (projectName : Option String)
    (title author : Option String) : List DocumentChunk :=
  let sourcePath := "pdf://" ++ url
  let chunks := chunkPDFDocument hash now chunkSize chunkOverlap pdfText sourcePath
    documentName projectName (some pages)
  chunks.map (fun c =>
    { c with metadata :=
      { c.metadata with
          hash := hash pdfText
          tags := some (["pdf", "source:" ++ url] ++
            (match title with | some t => ["title:" ++ t] | none => []) ++
            (match author with | some a => ["author:" ++ a] | none => [])) } })

/-! ## Vector Store (src/core/vector-store.ts) -/

/-- The flattened scalar metadata record accepted by the external store
(flattenMetadata's output type `Record<string, string | number | boolean>`,
with the statically known field types). -/
structure FlatMetadata where
  filePath : String
  fileName : String
  fileType : String
  language : String
  chunkIndex : Nat
  totalChunks : Int
  startLine : Nat
  endLine : Nat
  createdAt : String
  updatedAt : String
  hash : String
  projectName : String
  tags : String
deriving DecidableEq, Repr

/-- VectorStore.flattenMetadata: absent optional fields become empty
string/zero; tags joined with commas. -/
def flattenMetadata (m : DocumentMetadata) : FlatMetadata :=
  { filePath := m.filePath
    fileName := m.fileName
    fileType := m.fileType
    language := m.language.getD ""
    chunkIndex := m.chunkIndex
    totalChunks := m.totalChunks
    startLine := m.startLine.getD 0
    endLine := m.endLine.getD 0
    createdAt := m.createdAt
    updatedAt := m.updatedAt
    hash := m.hash
    projectName := m.projectName.getD ""
    tags := (m.tags.map (jsJoin ',')).getD "" }

/-- VectorStore.unflattenMetadata: JavaScript-falsy empty string/zero become
absent; tags re-split on commas dropping empty entries; a falsy timestamp
falls back to the current time `now`. -/
def unflattenMetadata (now : String) (f : FlatMetadata) : DocumentMetadata :=
  { filePath := f.filePath
    fileName := f.fileName
    fileType := f.fileType
    language := if f.language = "" then none else some f.language
    chunkIndex := f.chunkIndex
    totalChunks := if f.totalChunks = 0 then 1 else f.totalChunks
    startLine := if f.startLine = 0 then none else some f.startLine
    endLine := if f.endLine = 0 then none else some f.endLine
    createdAt := if f.createdAt = "" then now else f.createdAt
    updatedAt := if f.updatedAt = "" then now else f.updatedAt
    hash := f.hash
    projectName := if f.projectName = "" then none else some f.projectName
    tags := if f.tags = "" then none
      else some ((jsSplit ',' f.tags).filter (fun t => t ≠ "")) }

/-- One `{id, content, metadata}` tuple as stored in the external
collection (the embedding vector is not observable by any claim). -/
structure StoredRecord where
  id : String
  content : String
  metadata : FlatMetadata
deriving DecidableEq, Repr

/-- The VectorStore instance state: the `initialized` flag, whether
`collection` is non-null, and the collection contents. -/
structure VSState where
  inited : Bool
  hasCollection : Bool
  records : List StoredRecord
deriving Repr

/-- A fresh VectorStore after the constructor. -/
def vsInitial : VSState := ⟨false, false, []⟩

/-- Errors a VectorStore operation can raise. -/
inductive VSError where
  | notInited
  | connectFail
deriving DecidableEq, Repr

/-- VectorStore.initialize: a no-op when already initialized, else
get-or-create the collection (ConnectionFailure when the database is
unreachable, modelled by `connectOk`). -/
def vsInit (connectOk : Bool) (s : VSState) : Except VSError VSState :=
  if s.inited then .ok s
  else if connectOk then .ok { s with inited := true, hasCollection := true }
  else .error .connectFail

/-- VectorStore.ensureInitialized. -/
def ensureInit (s : VSState) : Except VSError Unit :=
  if s.inited ∧ s.hasCollection then .ok () else .error .notInited

/-- VectorStore.addDocuments: assign a fresh identifier (`uuids`) to any
document lacking one, flatten metadata, insert, return the ids used. -/
def vsAddDocuments (uuids : Nat → String) (s : VSState) (docs : List Document) :
    Except VSError (List String × VSState) := do
  _ ← ensureInit s
  let ids := docs.enum.map (fun p => if p.2.id ≠ "" then p.2.id else uuids p.1)
  let recs := (ids.zip docs).map (fun p =>
    { id := p.1, content := p.2.content, metadata := flattenMetadata p.2.metadata })
  .ok (ids, { s with records := s.records ++ recs })

/-- VectorStore.updateDocuments: upsert-style replace by identifier. -/
def vsUpdateDocuments (s : VSState) (ids : List String) (docs : List Document) :
    Except VSError VSState := do
  _ ← ensureInit s
  let recs := (ids.zip docs).map (fun p =>
    { id := p.1, content := p.2.content, metadata := flattenMetadata p.2.metadata })
  .ok { s with records :=
    (s.records.filter (fun r => ¬ids.contains r.id)) ++ recs }

/-- VectorStore.deleteDocuments. -/
def vsDeleteDocuments (s : VSState) (ids : List String) : Except VSError VSState := do
  _ ← ensureInit s
  .ok { s with records := s.records.filter (fun r => ¬ids.contains r.id) }

/-- VectorStore.deleteByFilePath: delete every chunk whose metadata
`filePath` equals the given value. -/
def vsDeleteByFilePath (s : VSState) (filePath : String) : Except VSError VSState := do
  _ ← ensureInit s
  .ok { s with records := s.records.filter (fun r => r.metadata.filePath ≠ filePath) }

/-- VectorStore.query: similarity search ordered by the external database's
distances (the oracle `dist`), with `score = 1 - distance`. -/
def vsQuery (now : String) (dist : StoredRecord → ℚ) (s : VSState) (topK : Nat) :
    Except VSError (List RetrievalResult) := do
  _ ← ensureInit s
  let ranked := (s.records.mergeSort (fun a b => dist a ≤ dist b)).take topK
  .ok (ranked.map (fun r =>
    { document := { id := r.id, content := r.content,
                    metadata := unflattenMetadata now r.metadata }
      score := 1 - dist r }))

/-- VectorStore.getDocumentsByFilePath: exact-match metadata filter without
similarity ranking. -/
def vsGetDocumentsByFilePath (now : String) (s : VSState) (filePath : String) :
    Except VSError (List Document) := do
  _ ← ensureInit s
  .ok ((s.records.filter (fun r => r.metadata.filePath = filePath)).map (fun r =>
    { id := r.id, content := r.content, metadata := unflattenMetadata now r.metadata }))

/-- VectorStore.getDocumentCount. -/
def vsGetDocumentCount (s : VSState) : Except VSError Nat := do
  _ ← ensureInit s
  .ok s.records.length

/-- VectorStore.listCollections: a direct client call, performed without
consulting the initialization state. -/
def vsListCollections (connectOk : Bool) (collections : List String) (_s : VSState) :
    Except VSError (List String) :=
  if connectOk then .ok collections else .error .connectFail

/-- VectorStore.deleteCollection: drops the collection and resets the
initialization state; also performed without consulting it first. -/
def vsDeleteCollection (connectOk : Bool) (s : VSState) : Except VSError VSState :=
  if connectOk then .ok { inited := false, hasCollection := false, records := [] }
  else .error .connectFail

/-! ## Document Ingestion Service (src/embeddings/ingestion.js) -/

/-- Lookup in the service's in-memory `fileHashes` map. -/
def tableGet (t : List (String × String)) (k : String) : Option String :=
  (t.find? (fun p => p.1 = k)).map (·.2)

/-- Insert/overwrite in the in-memory `fileHashes` map. -/
def tableSet (t : List (String × String)) (k v : String) : List (String × String) :=
  if (t.find? (fun p => p.1 = k)).isSome then
    t.map (fun p => if p.1 = k then (k, v) else p)
  else t ++ [(k, v)]

/-- The `{skipped, chunks}` record processFile returns. -/
structure ProcessResult where
  skipped : Bool
  chunks : Nat
deriving DecidableEq, Repr

/-- DocumentIngestionService.processFile, acting on the in-memory per-path
hash table and the vector-store collection contents (`records`; the store
is initialized before any file is processed).  `fileSize` is the on-disk
byte count from `stat`, `content` the file text; `fileName`/`fileType` are
`basename`/`extname` of the path.  Embedding generation is external and not
observable by any claim.  Returns the result, the updated in-memory table
and the updated collection. -/
def processFile (hash : String → String) (pat : String → Bool) (now : String)
    (chunkSize chunkOverlap maxFileSize : Nat)
    (fileSize : Nat) (content filePath fileName fileType : String)
    (forceReindex : Bool) (projectName : Option String)
    (fileHashes : List (String × String)) (records : List StoredRecord) :
    ProcessResult × List (String × String) × List StoredRecord :=
  if fileSize > maxFileSize then (⟨true, 0⟩, fileHashes, records)
  else
    let contentHash := hash content
    if ¬forceReindex ∧ tableGet fileHashes filePath = some contentHash then
      (⟨true, 0⟩, fileHashes, records)
    else
      let existingDocs := records.filter (fun r => r.metadata.filePath = filePath)
      if ¬forceReindex ∧ existingDocs.length > 0 ∧
          (existingDocs.head?.map (fun r => r.metadata.hash)) = some contentHash then
        (⟨true, 0⟩, tableSet fileHashes filePath contentHash, records)
      else
        let records₁ := records.filter (fun r => r.metadata.filePath ≠ filePath)
        let chunks := chunkDocument hash pat now chunkSize chunkOverlap content
          filePath fileName fileType projectName
        if chunks.length = 0 then (⟨true, 0⟩, fileHashes, records₁)
        else
          let records₂ := records₁ ++ chunks.map (fun c =>
            { id := c.id, content := c.content, metadata := flattenMetadata c.metadata })
          (⟨false, chunks.length⟩, tableSet fileHashes filePath contentHash, records₂)

/-! ## Intelligent Retriever (dist/retrieval/retriever.js) -/

/-- One entry of the fusion `scoreMap`: document id, the first result record
seen for it, and its accumulated score.  The list preserves Map insertion
order. -/
structure FusionEntry where
  key : String
  result : RetrievalResult
  score : ℚ
deriving DecidableEq, Repr

/-- One fusion step: add `rrf` to an existing entry's score, or append a new
entry (Map.set preserves insertion order). -/
def fusionUpsert (id : String) (res : RetrievalResult) (rrf : ℚ) :
    List FusionEntry → List FusionEntry
  | [] => [⟨id, res, rrf⟩]
  | e :: rest =>
      if e.key = id then { e with score := e.score + rrf } :: rest
      else e :: fusionUpsert id res rrf rest

/-- The forEach over one result list: item at 0-based rank `rank` contributes
`weight / (60 + rank + 1)` (RRF constant 60). -/
def fusionAdd (weight : ℚ) : Nat → List RetrievalResult → List FusionEntry → List FusionEntry
  | _, [], m => m
  | rank, r :: rs, m =>
      fusionAdd weight (rank + 1) rs
        (fusionUpsert r.document.id r (weight / (60 + (rank : ℚ) + 1)) m)

/-- Stable descending insertion by score (JavaScript's stable
`sort((a, b) => b.score - a.score)`). -/
def insertByScoreDesc (e : FusionEntry) : List FusionEntry → List FusionEntry
  | [] => [e]
  | f :: fs => if e.score < f.score then f :: insertByScoreDesc e fs else e :: f :: fs

/-- Stable descending sort by accumulated score. -/
def sortByScoreDesc : List FusionEntry → List FusionEntry
  | [] => []
  | e :: es => insertByScoreDesc e (sortByScoreDesc es)

/-- IntelligentRetriever.reciprocalRankFusion: accumulate weighted
reciprocal-rank contributions per document id across the two lists, sort by
combined score descending, take topK, and write the fused score back into
each result. -/
def reciprocalRankFusion (semanticResults keywordResults : List RetrievalResult)
    (semanticWeight keywordWeight : ℚ) (topK : Nat) : List RetrievalResult :=
  let m := fusionAdd keywordWeight 0 keywordResults
    (fusionAdd semanticWeight 0 semanticResults [])
  ((sortByScoreDesc m).take topK).map (fun e => { e.result with score := e.score })

/-- A character of the regex class `[\d,\s]`. -/
def isRankChar (c : Char) : Bool :=
  c.isDigit || c = ',' || c.isWhitespace

/-- Leftmost match of `\[[\d,\s]+\]`: returns the characters between the
brackets of the first bracketed run of digits/commas/whitespace. -/
def findBracketRun : List Char → Option (List Char)
  | [] => none
  | '[' :: rest =>
      let run := rest.takeWhile isRankChar
      if run.length > 0 ∧ (rest.drop run.length).head? = some ']' then some run
      else findBracketRun rest
  | _ :: rest => findBracketRun rest

/-- Skip JSON whitespace. -/
def skipWs (cs : List Char) : List Char :=
  cs.dropWhile Char.isWhitespace

/-- Parse one JSON number made of digits (no leading zero unless exactly
"0", per JSON.parse). -/
def parseDigits (cs : List Char) : Option (Nat × List Char) :=
  let ds := cs.takeWhile Char.isDigit
  if ds.length = 0 then none
  else if ds.length > 1 ∧ ds.head? = some '0' then none
  else some (digitsToNat ds, cs.drop ds.length)

/-- Parse the comma-separated tail of a JSON integer array (fuel-bounded;
`fuel` at least the character count always suffices). -/
def parseIntTail (fuel : Nat) (acc : List Nat) (cs : List Char) : Option (List Nat) :=
  match fuel with
  | 0 => none
  | fuel + 1 =>
      match skipWs cs with
      | [] => some acc
      | ',' :: rest =>
          match parseDigits (skipWs rest) with
          | some (n, rest') => parseIntTail fuel (acc ++ [n]) rest'
          | none => none
      | _ => none

/-- `JSON.parse` of `"[" ++ content ++ "]"` where content is drawn from
`[\d,\s]`: an array of nonnegative integers, or failure. -/
def jsonParseIntArray (content : List Char) : Option (List Nat) :=
  match skipWs content with
  | [] => some []
  | cs =>
      match parseDigits cs with
      | some (n, rest) => parseIntTail (content.length + 1) [n] rest
      | none => none

/-- The ranking extraction of IntelligentRetriever.rerank: find the first
bracketed digits/commas/whitespace run and JSON-parse it; either step
failing yields none (JSON.parse throwing is caught by rerank's catch). -/
def extractRanking (text : String) : Option (List Nat) :=
  match findBracketRun text.toList with
  | none => none
  | some run => jsonParseIntArray run

/-- The reranked-collection loop: map each 1-based position back to the
original candidates, skipping out-of-range positions, stopping once `topN`
results are collected (the length check runs after every iteration). -/
def collectReranked (results : List RetrievalResult) (topN : Nat) :
    List Nat → List RetrievalResult → List RetrievalResult
  | [], acc => acc
  | rank :: rs, acc =>
      let acc' := if 1 ≤ rank ∧ rank ≤ results.length then
          acc ++ (results.drop (rank - 1)).take 1
        else acc
      if acc'.length ≥ topN then acc'
      else collectReranked results topN rs acc'

/-- IntelligentRetriever.rerank.  `hasClient` models `this.anthropic`;
`response` is the re-ranking model's text reply, none standing for a failed
call or a non-text content block.  On success, scores are re-assigned as
`1 - index / resultCount`; every failure path returns the first `topN`
pre-rerank results unchanged. -/
def rerank (hasClient : Bool) (results : List RetrievalResult) (topN : Nat)
    (response : Option String) : List RetrievalResult :=
  if ¬hasClient ∨ results.length = 0 then results.take topN
  else
    match response with
    | none => results.take topN
    | some text =>
        match extractRanking text with
        | none => results.take topN
        | some ranking =>
            let reranked := collectReranked results topN ranking []
            reranked.enum.map (fun p =>
              { p.2 with score := 1 - (p.1 : ℚ) / (reranked.length : ℚ) })

/-- The retrieval configuration section (`retrieval` of the Config schema). -/
structure RetrievalConfig where
  topK : Nat
  minScore : ℚ
  rerankingEnabled : Bool
  rerankingTopN : Nat
  hybridEnabled : Bool
  keywordWeight : ℚ
  semanticWeight : ℚ
deriving Repr

/-- The schema defaults for the retrieval section (src/core/types.ts). -/
def defaultRetrievalConfig : RetrievalConfig :=
  { topK := 10
    minScore := 7/10
    rerankingEnabled := true
    rerankingTopN := 5
    hybridEnabled := true
    keywordWeight := 3/10
    semanticWeight := 7/10 }

/-- The RetrievalQuery input contract. -/
structure RetrievalQuery where
  query : String
  topK : Option Nat
  minScore : Option ℚ
  rerank : Option Bool
deriving Repr

/-- IntelligentRetriever.retrieve after the cache lookup missed (`cached`
is the retrieval cache's answer for this query's key).  The semantic and
keyword search results are network-derived inputs: under hybrid search the
source fetches both lists with `topK * 2`; otherwise `semanticOnly` is the
plain semantic search result.  The fused/filtered list is re-ranked when
the caller permits it, re-ranking is enabled and an LLM client exists. -/
def retrieve (cfg : RetrievalConfig) (hasClient : Bool) (response : Option String)
    (cached : Option (List RetrievalResult)) (q : RetrievalQuery)
    (semanticList keywordList semanticOnly : List RetrievalResult) :
    List RetrievalResult :=
  let topK := q.topK.getD cfg.topK
  let minScore := q.minScore.getD cfg.minScore
  match cached with
  | some r => r
  | none =>
      let results :=
        if cfg.hybridEnabled then
          reciprocalRankFusion semanticList keywordList
            cfg.semanticWeight cfg.keywordWeight topK
        else semanticOnly
      let results := results.filter (fun r => r.score ≥ minScore)
      if q.rerank ≠ some false ∧ cfg.rerankingEnabled ∧ hasClient then
        rerank hasClient results cfg.rerankingTopN response
      else results

/-! ## JSON values and JSON.parse (used by the orchestrator's plan parsing) -/

/-- A JSON value; numbers carry their exact decimal value. -/
inductive Json where
  | null : Json
  | bool (b : Bool) : Json
  | num (q : ℚ) : Json
  | str (s : String) : Json
  | arr (xs : List Json) : Json
  | obj (kvs : List (String × Json)) : Json
deriving BEq, Repr

/-- JavaScript property lookup on a parsed object (JSON.parse keeps the
last duplicate key). -/
def objLookup (kvs : List (String × Json)) (k : String) : Option Json :=
  (kvs.reverse.find? (fun p => p.1 = k)).map (·.2)

/-- Hex digit value. -/
def hexVal (c : Char) : Option Nat :=
  if c.isDigit then some (c.toNat - '0'.toNat)
  else if 'a' ≤ c ∧ c ≤ 'f' then some (c.toNat - 'a'.toNat + 10)
  else if 'A' ≤ c ∧ c ≤ 'F' then some (c.toNat - 'A'.toNat + 10)
  else none

/-- JSON string body parser (after the opening quote), handling escapes and
rejecting raw control characters. -/
def jsonStringGo (fuel : Nat) (acc : List Char) (cs : List Char) :
    Option (String × List Char) :=
  match fuel, cs with
  | 0, _ => none
  | _, [] => none
  | fuel + 1, c :: rest =>
      if c = '"' then some (String.mk acc.reverse, rest)
      else if c = '\\' then
        match rest with
        | [] => none
        | e :: rest' =>
            if e = '"' then jsonStringGo fuel ('"' :: acc) rest'
            else if e = '\\' then jsonStringGo fuel ('\\' :: acc) rest'
            else if e = '/' then jsonStringGo fuel ('/' :: acc) rest'
            else if e = 'b' then jsonStringGo fuel (Char.ofNat 8 :: acc) rest'
            else if e = 'f' then jsonStringGo fuel (Char.ofNat 12 :: acc) rest'
            else if e = 'n' then jsonStringGo fuel ('\n' :: acc) rest'
            else if e = 'r' then jsonStringGo fuel ('\r' :: acc) rest'
            else if e = 't' then jsonStringGo fuel ('\t' :: acc) rest'
            else if e = 'u' then
              match rest' with
              | h1 :: h2 :: h3 :: h4 :: rest'' =>
                  match hexVal h1, hexVal h2, hexVal h3, hexVal h4 with
                  | some a, some b, some c', some d =>
                      jsonStringGo fuel
                        (Char.ofNat (((a * 16 + b) * 16 + c') * 16 + d) :: acc) rest''
                  | _, _, _, _ => none
              | _ => none
            else none
      else if c.toNat < 32 then none
      else jsonStringGo fuel (c :: acc) rest

/-- JSON number parser: optional minus, integer part without superfluous
leading zero, optional fraction, optional exponent; exact rational value. -/
def jsonNumber (cs : List Char) : Option (ℚ × List Char) :=
  let (neg, cs₁) := match cs with
    | '-' :: rest => (true, rest)
    | _ => (false, cs)
  let ids := cs₁.takeWhile Char.isDigit
  if ids.length = 0 then none
  else if ids.length > 1 ∧ ids.head? = some '0' then none
  else
    let intPart : ℚ := (digitsToNat ids : ℚ)
    let cs₂ := cs₁.drop ids.length
    let fracStep : Option (ℚ × List Char) :=
      match cs₂ with
      | '.' :: rest =>
          let fds := rest.takeWhile Char.isDigit
          if fds.length = 0 then none
          else some (intPart + (digitsToNat fds : ℚ) / ((10 : ℚ) ^ fds.length),
            rest.drop fds.length)
      | _ => some (intPart, cs₂)
    match fracStep with
    | none => none
    | some (mant, cs₃) =>
        let expStep : Option (ℚ × List Char) :=
          match cs₃ with
          | 'e' :: rest | 'E' :: rest =>
              let (eneg, rest₁) := match rest with
                | '-' :: r => (true, r)
                | '+' :: r => (false, r)
                | _ => (false, rest)
              let eds := rest₁.takeWhile Char.isDigit
              if eds.length = 0 then none
              else
                let e := digitsToNat eds
                some ((if eneg then mant / (10 : ℚ) ^ e else mant * (10 : ℚ) ^ e),
                  rest₁.drop eds.length)
          | _ => some (mant, cs₃)
        match expStep with
        | none => none
        | some (v, cs₄) => some ((if neg then -v else v), cs₄)

mutual

/-- JSON value parser (fuel-bounded; fuel linear in the input length always
suffices). -/
def jsonVal : Nat → List Char → Option (Json × List Char)
  | 0, _ => none
  | fuel + 1, cs =>
      match skipWs cs with
      | 'n' :: 'u' :: 'l' :: 'l' :: rest => some (.null, rest)
      | 't' :: 'r' :: 'u' :: 'e' :: rest => some (.bool true, rest)
      | 'f' :: 'a' :: 'l' :: 's' :: 'e' :: rest => some (.bool false, rest)
      | '"' :: rest =>
          match jsonStringGo (rest.length + 1) [] rest with
          | some (s, rest') => some (.str s, rest')
          | none => none
      | '[' :: rest =>
          match jsonArrElems fuel rest with
          | some (xs, rest') => some (.arr xs, rest')
          | none => none
      | '{' :: rest =>
          match jsonObjMembers fuel rest with
          | some (kvs, rest') => some (.obj kvs, rest')
          | none => none
      | cs' =>
          match jsonNumber cs' with
          | some (q, rest) => some (.num q, rest)
          | none => none

/-- JSON array elements parser (after the opening bracket). -/
def jsonArrElems : Nat → List Char → Option (List Json × List Char)
  | 0, _ => none
  | fuel + 1, cs =>
      match skipWs cs with
      | ']' :: rest => some ([], rest)
      | cs' =>
          match jsonVal fuel cs' with
          | none => none
          | some (v, rest) => jsonArrTail fuel [v] rest

/-- JSON array tail parser: after one element, expect `,` or `]`. -/
def jsonArrTail : Nat → List Json → List Char → Option (List Json × List Char)
  | 0, _, _ => none
  | fuel + 1, acc, cs =>
      match skipWs cs with
      | ']' :: rest => some (acc, rest)
      | ',' :: rest =>
          match jsonVal fuel rest with
          | none => none
          | some (v, rest') => jsonArrTail fuel (acc ++ [v]) rest'
      | _ => none

/-- JSON object members parser (after the opening brace). -/
def jsonObjMembers : Nat → List Char → Option (List (String × Json) × List Char)
  | 0, _ => none
  | fuel + 1, cs =>
      match skipWs cs with
      | '}' :: rest => some ([], rest)
      | '"' :: rest =>
          match jsonStringGo (rest.length + 1) [] rest with
          | none => none
          | some (k, rest') =>
              match skipWs rest' with
              | ':' :: rest'' =>
                  match jsonVal fuel rest'' with
                  | none => none
                  | some (v, rest''') => jsonObjTail fuel [(k, v)] rest'''
              | _ => none
      | _ => none

/-- JSON object tail parser: after one member, expect `,` or the closing
brace. -/
def jsonObjTail : Nat → List (String × Json) → List Char → Option (List (String × Json) × List Char)
  | 0, _, _ => none
  | fuel + 1, acc, cs =>
      match skipWs cs with
      | '}' :: rest => some (acc, rest)
      | ',' :: rest =>
          match skipWs rest with
          | '"' :: rest' =>
              match jsonStringGo (rest'.length + 1) [] rest' with
              | none => none
              | some (k, rest'') =>
                  match skipWs rest'' with
                  | ':' :: rest''' =>
                      match jsonVal fuel rest''' with
                      | none => none
                      | some (v, rest4) => jsonObjTail fuel (acc ++ [(k, v)]) rest4
                  | _ => none
          | _ => none
      | _ => none

end

/-- JSON.parse: parse one value and require only whitespace to remain. -/
def jsonParse (s : String) : Option Json :=
  match jsonVal (2 * s.length + 2) s.toList with
  | some (v, rest) => if skipWs rest = [] then some v else none
  | none => none

/-! ## Orchestrator (src/agents/orchestrator.ts) -/

/-- Leftmost-greedy match of the regex `\{[\s\S]*\}`: the substring from
the first opening brace to the last closing brace after it. -/
def findBraceMatch (s : String) : Option String :=
  let cs := s.toList
  let pre := cs.takeWhile (fun c => c ≠ '{')
  if pre.length = cs.length then none
  else
    let fromBrace := cs.drop pre.length
    let revTail := fromBrace.reverse.takeWhile (fun c => c ≠ '}')
    if revTail.length = fromBrace.length then none
    else some (String.mk (fromBrace.take (fromBrace.length - revTail.length)))

/-- Task.type values from src/core/types.ts. -/
inductive TaskType where
  | query | index | analyze | synthesize
deriving DecidableEq, Repr

/-- Task.status values from src/core/types.ts. -/
inductive TaskStatus where
  | pending | running | completed | failed
deriving DecidableEq, Repr

/-- What a task's `result` field holds after execution. -/
inductive TaskResult where
  | retrieverResponse | analyzerResponse | deferred
deriving DecidableEq, Repr

/-- A Task record as built and mutated by the Orchestrator. -/
structure OrchTask where
  id : String
  taskType : TaskType
  purpose : Option Json
  order : Nat
  status : TaskStatus
  result : Option TaskResult
  error : Option String
  startedAt : Option String
  completedAt : Option String
deriving Repr

/-- An OrchestratorPlan; `strategy` is whatever the parsed plan carried
(the source does not validate it). -/
structure OrchestratorPlan where
  tasks : List OrchTask
  strategy : Json
  estimatedSteps : Nat
deriving Repr

/-- JavaScript strict equality of a property value with a string literal
(true only for an identical string). -/
def jsonIsStr (j : Option Json) (s : String) : Bool :=
  match j with
  | some (.str t) => t = s
  | _ => false

/-- Derive a task type from a step's `agent` value
(`retriever → query`, `analyzer → analyze`, anything else → synthesize). -/
def taskTypeOfAgent (agent : Option Json) : TaskType :=
  if jsonIsStr agent "retriever" then .query
  else if jsonIsStr agent "analyzer" then .analyze
  else .synthesize

/-- Build the pending Task list from plan steps; `uuids` supplies the random
task identifiers. -/
def tasksOfSteps (uuids : Nat → String) (steps : List (Option Json × Option Json)) :
    List OrchTask :=
  steps.enum.map (fun p =>
    { id := uuids p.1
      taskType := taskTypeOfAgent p.2.1
      purpose := p.2.2
      order := p.1
      status := .pending
      result := none
      error := none
      startedAt := none
      completedAt := none })

/-- The fallback plan data used when the planning response contains no
brace-delimited block at all: three sequential steps. -/
def fallbackSteps3 : List (Option Json × Option Json) :=
  [(some (.str "retriever"), some (.str "Find relevant code")),
   (some (.str "analyzer"), some (.str "Analyze retrieved content")),
   (some (.str "synthesizer"), some (.str "Generate response"))]

/-- The fallback plan data used when a brace-delimited block exists but
JSON.parse throws (the catch branch): two sequential steps. -/
def fallbackSteps2 : List (Option Json × Option Json) :=
  [(some (.str "retriever"), some (.str "Find relevant code")),
   (some (.str "synthesizer"), some (.str "Generate response"))]

/-- Extract `planData.steps` as the array JavaScript's `.map` requires; a
missing or non-array `steps` (or a non-object planData) makes the
subsequent `.map` throw a TypeError. -/
def planSteps : Json → Option (List Json)
  | .obj kvs =>
      match objLookup kvs "steps" with
      | some (.arr xs) => some xs
      | _ => none
  | _ => none

/-- A step element's `agent`/`purpose` properties (undefined when the
element is not an object). -/
def stepFields : Json → Option Json × Option Json
  | .obj kvs => (objLookup kvs "agent", objLookup kvs "purpose")
  | _ => (none, none)

/-- Orchestrator.createPlan as a function of the planning LLM's reply:
best-effort JSON extraction with two distinct fallbacks (regex miss → fixed
3-step plan; JSON.parse failure → fixed 2-step plan); a response that
parses but lacks a `steps` array makes createPlan itself throw (TypeError
on `planData.steps.map`), modelled as `.error`. -/
def createPlan (uuids : Nat → String) (response : String) :
    Except String OrchestratorPlan :=
  match findBraceMatch response with
  | none =>
      .ok { tasks := tasksOfSteps uuids fallbackSteps3
            strategy := .str "sequential"
            estimatedSteps := fallbackSteps3.length }
  | some jsonStr =>
      match jsonParse jsonStr with
      | none =>
          .ok { tasks := tasksOfSteps uuids fallbackSteps2
                strategy := .str "sequential"
                estimatedSteps := fallbackSteps2.length }
      | some planData =>
          match planSteps planData with
          | none => .error "TypeError: planData.steps.map is not a function"
          | some steps =>
              let stepPairs := steps.map stepFields
              let tasks := tasksOfSteps uuids stepPairs
              .ok { tasks := tasks
                    strategy :=
                      (match planData with
                       | .obj kvs => (objLookup kvs "strategy").getD .null
                       | _ => .null)
                    estimatedSteps := tasks.length }

/-- Mark a task completed (with completion timestamp and optional result). -/
def completeTask (t : OrchTask) (now : String) (res : Option TaskResult) : OrchTask :=
  { t with status := TaskStatus.completed, result := res, completedAt := some now }

/-- Mark a task failed with the captured error message. -/
def failTask (t : OrchTask) (e : String) : OrchTask :=
  { t with status := TaskStatus.failed, error := some e }

/-- The task walk of Orchestrator.executePlan.  `retrieverOutcome` is the
RetrieverAgent call's outcome (its retrieve action's result list, none when
the response carried no retrieve action); `analyzerOutcome` the
AnalyzerAgent call's outcome.  The analyzer is invoked only when documents
were already retrieved; a task's failure is recorded on the task and does
not abort the remaining tasks; tasks beyond `maxIterations` stay pending. -/
def execGo (maxIterations : Nat) (now : String)
    (retrieverOutcome : Except String (Option (List RetrievalResult)))
    (analyzerOutcome : Except String Unit) :
    List OrchTask → Nat → List RetrievalResult → Option Unit → List OrchTask →
    List OrchTask × List RetrievalResult × Option Unit × Nat
  | [], iter, docs, ana, done => (done, docs, ana, iter)
  | t :: rest, iter, docs, ana, done =>
      if iter ≥ maxIterations then (done ++ (t :: rest), docs, ana, iter)
      else
        let started := { t with status := TaskStatus.running, startedAt := some now }
        match started.taskType with
        | .query =>
            match retrieverOutcome with
            | .ok r =>
                execGo maxIterations now retrieverOutcome analyzerOutcome rest
                  (iter + 1) (r.getD docs) ana
                  (done ++ [completeTask started now (some .retrieverResponse)])
            | .error e =>
                execGo maxIterations now retrieverOutcome analyzerOutcome rest
                  (iter + 1) docs ana (done ++ [failTask started e])
        | .analyze =>
            if docs.length > 0 then
              match analyzerOutcome with
              | .ok _ =>
                  execGo maxIterations now retrieverOutcome analyzerOutcome rest
                    (iter + 1) docs (some ())
                    (done ++ [completeTask started now (some .analyzerResponse)])
              | .error e =>
                  execGo maxIterations now retrieverOutcome analyzerOutcome rest
                    (iter + 1) docs ana (done ++ [failTask started e])
            else
              execGo maxIterations now retrieverOutcome analyzerOutcome rest
                (iter + 1) docs ana (done ++ [completeTask started now none])
        | .synthesize =>
            execGo maxIterations now retrieverOutcome analyzerOutcome rest
              (iter + 1) docs ana (done ++ [completeTask started now (some .deferred)])
        | .index =>
            execGo maxIterations now retrieverOutcome analyzerOutcome rest
              (iter + 1) docs ana (done ++ [completeTask started now none])

/-- Orchestrator.executePlan. -/
def executePlan (maxIterations : Nat) (now : String)
    (retrieverOutcome : Except String (Option (List RetrievalResult)))
    (analyzerOutcome : Except String Unit) (plan : OrchestratorPlan) :
    List OrchTask × List RetrievalResult × Option Unit × Nat :=
  execGo maxIterations now retrieverOutcome analyzerOutcome plan.tasks 0 [] none []

/-! ## PDF Fetcher (src/fetchers/pdf-fetcher.ts, fetchAndParse) -/

/-- The failure modes of PDFFetcher.fetchAndParse (each a thrown Error in
the source). -/
inductive FetchError where
  | invalidUrl
  | httpError
  | tooLargeDeclared
  | emptyBody
  | streamError
  | tooLargeActual
  | parseError
deriving DecidableEq, Repr

/-- The external world one fetch observes: URL validity, the HTTP response
(ok flag, optional parsed content-length header, body presence), whether
streaming the body to disk succeeds, the staged file's actual byte size,
and whether pdf-parse succeeds. -/
structure FetchEnv where
  urlValid : Bool
  responseOk : Bool
  contentLength : Option Nat
  hasBody : Bool
  streamOk : Bool
  actualSize : Nat
  parseOk : Bool
deriving Repr

/-- The observable staging-area outcome of one fetch: whether the temp file
was ever created, and whether it still exists when fetchAndParse returns. -/
structure StagingOutcome where
  everCreated : Bool
  existsAfter : Bool
deriving DecidableEq, Repr

/-- PDFFetcher.fetchAndParse as a sequence of guarded steps over `env`,
with `maxSizeMB` from options (default 50).  Size checks use JavaScript's
fractional megabyte arithmetic: `bytes / (1024 * 1024) > maxSizeMB`.
The boolean paired with each step outcome records whether the staging file
has been created (createWriteStream runs only after the response, declared
content-length and body checks all pass).  The `finally` block removes the
staging file on every path that entered the try block; the invalid-URL
throw happens before it.  Returns the call's outcome plus the staging-area
outcome. -/
def fetchAndParse (env : FetchEnv) (maxSizeMB : ℚ) :
    Except FetchError Unit × StagingOutcome :=
  if ¬env.urlValid then
    (.error .invalidUrl, ⟨false, false⟩)
  else
    -- inside try { ... } finally { unlink(tempFilePath) }
    let step : Bool × Except FetchError Unit :=
      if ¬env.responseOk then (false, .error .httpError)
      else if (match env.contentLength with
               | some sizeBytes => decide ((sizeBytes : ℚ) / (1024 * 1024) > maxSizeMB)
               | none => false) then (false, .error .tooLargeDeclared)
      else if ¬env.hasBody then (false, .error .emptyBody)
      else
        -- createWriteStream(tempFilePath): the staging file now exists
        if ¬env.streamOk then (true, .error .streamError)
        else if (env.actualSize : ℚ) / (1024 * 1024) > maxSizeMB then
          (true, .error .tooLargeActual)
        else if ¬env.parseOk then (true, .error .parseError)
        else (true, .ok ())
    (step.2, { everCreated := step.1, existsAfter := false })

/-! ## Sample values used by concrete instances -/

/-- A minimal metadata record for sample documents. -/
def sampleMetadata : DocumentMetadata :=
  { filePath := "/s.ts", fileName := "s.ts", fileType := ".ts", language := none,
    chunkIndex := 0, totalChunks := 1, startLine := none, endLine := none,
    createdAt := "t", updatedAt := "t", hash := "", projectName := none, tags := none }

/-- A sample retrieval result with the given document id. -/
def sampleResult (i : String) : RetrievalResult :=
  { document := { id := i, content := "", metadata := sampleMetadata }, score := 0 }

/-! ## Claims -/

/-- C1: incremental ingestion is NOT idempotent across a process restart.
The file "aaaaaaaaaaaa\nbbbbbbbbbbbb" (chunk size 10, so it chunks into two
chunks) is ingested once; re-ingesting the identical content with the
in-memory table still warm skips it, but re-ingesting it with a fresh
in-memory table (a restarted process) and the populated vector store does
NOT skip it (`skipped = false`, two chunks re-embedded): processFile
compares the whole file's content hash against the stored hash of the
first chunk, which is that chunk's own content hash, so the store-side
check can never succeed for a multi-chunk file.  The content hash is
instantiated with an injective concrete function (the identity). -/
theorem C1_processFile_restart_not_skipped :
    (processFile (fun s => s) (fun _ => false) "T" 10 0 1000 25
      "aaaaaaaaaaaa\nbbbbbbbbbbbb" "/f.txt" "f.txt" ".txt" false none [] []).1 =
      ⟨false, 2⟩ ∧
    (processFile (fun s => s) (fun _ => false) "T" 10 0 1000 25
      "aaaaaaaaaaaa\nbbbbbbbbbbbb" "/f.txt" "f.txt" ".txt" false none
      (processFile (fun s => s) (fun _ => false) "T" 10 0 1000 25
        "aaaaaaaaaaaa\nbbbbbbbbbbbb" "/f.txt" "f.txt" ".txt" false none [] []).2.1
      (processFile (fun s => s) (fun _ => false) "T" 10 0 1000 25
        "aaaaaaaaaaaa\nbbbbbbbbbbbb" "/f.txt" "f.txt" ".txt" false none [] []).2.2).1 =
      ⟨true, 0⟩ ∧
    (processFile (fun s => s) (fun _ => false) "T" 10 0 1000 25
      "aaaaaaaaaaaa\nbbbbbbbbbbbb" "/f.txt" "f.txt" ".txt" false none []
      (processFile (fun s => s) (fun _ => false) "T" 10 0 1000 25
        "aaaaaaaaaaaa\nbbbbbbbbbbbb" "/f.txt" "f.txt" ".txt" false none [] []).2.2).1 =
      ⟨false, 2⟩ := by
  refine ⟨?_, ?_, ?_⟩ <;> decide

/-- C5: hybrid fusion at the spec's example — semantic list [D1, D2] and
keyword list [D2, D3] with weights 0.7/0.3 and RRF constant 60 fuse to
exactly [D2, D1, D3], with D2's score the sum of its two per-list
contributions 0.7/(60+1+1) and 0.3/(60+0+1), D1's 0.7/(60+0+1) and D3's
0.3/(60+1+1). -/
theorem C5_rrf_example_order :
    (reciprocalRankFusion [sampleResult "D1", sampleResult "D2"]
        [sampleResult "D2", sampleResult "D3"] (7/10) (3/10) 10).map
      (fun r => (r.document.id, r.score)) =
    [("D2", 7/10 / (60 + 1 + 1) + 3/10 / (60 + 0 + 1)),
     ("D1", 7/10 / (60 + 0 + 1)),
     ("D3", 3/10 / (60 + 1 + 1))] := by
  norm_num [reciprocalRankFusion, fusionAdd, fusionUpsert, sortByScoreDesc,
    insertByScoreDesc, sampleResult]

/-- C2 counterexample: chunkPDFDocument on empty content (no page
structure) returns the empty list, not a single empty-content chunk. -/
theorem C2_counterexample_empty_pdf :
    chunkPDFDocument (fun s => s) "now" 1000 200 "" "pdf://u" "doc" none none = [] := by
  decide

/-- C3 counterexample: a chunk written by the PDF ingestion path carries
the whole parsed document's hash, not its own text's hash — here the single
chunk's content is "aaa\n\nbbb" but its stored hash is the hash of the full
text "aaa\nbbb" (hash instantiated with the identity). -/
theorem C3_counterexample_pdf_chunk_hash :
    (pdfIngestChunks (fun s => s) "now" 1000 200 "aaa\nbbb"
        [⟨1, "aaa"⟩, ⟨2, "bbb"⟩] "http://u/x.pdf" "doc" none none none).map
      (fun c => (c.content, c.metadata.hash)) = [("aaa\n\nbbb", "aaa\nbbb")] ∧
    (fun s : String => s) "aaa\n\nbbb" ≠ "aaa\nbbb" := by
  refine ⟨by decide, by decide⟩

/-- C7 counterexample: the response "{bad}" contains a brace-delimited
block that is not parseable JSON (so the response contains no parseable
JSON plan), yet createPlan returns a TWO-task plan (retrieve, synthesize)
from its catch branch, not the claimed three-task plan. -/
theorem C7_counterexample_catch_two_tasks :
    findBraceMatch "\x7bbad\x7d" = some "\x7bbad\x7d" ∧
    (jsonParse "\x7bbad\x7d").isNone = true ∧
    ((createPlan (fun _ => "t") "\x7bbad\x7d").toOption.map
      (fun p => (p.tasks.length, p.tasks.map (·.taskType)))) =
      some (2, [.query, .synthesize]) := by
  refine ⟨by decide, by decide, by decide⟩

/-- C8 counterexample: listCollections invoked on a never-initialized
VectorStore does not raise the not-initialized error — it performs the
client call and succeeds. -/
theorem C8_counterexample_listCollections_uninitialized :
    vsInitial.inited = false ∧
    vsListCollections true ["claude_rag_documents"] vsInitial =
      .ok ["claude_rag_documents"] := by
  refine ⟨rfl, rfl⟩

/-- C9 counterexample: metadata whose tags list contains a comma inside a
tag does not survive the flatten/unflatten round trip — ["a,b"] comes back
as ["a", "b"]. -/
theorem C9_counterexample_tags_comma :
    (unflattenMetadata "NOW" (flattenMetadata
      { sampleMetadata with tags := some ["a,b"] })).tags = some ["a", "b"] ∧
    unflattenMetadata "NOW" (flattenMetadata
      { sampleMetadata with tags := some ["a,b"] }) ≠
      { sampleMetadata with tags := some ["a,b"] } := by
  refine ⟨by decide, by decide⟩

/-- C6: whenever the re-ranking response cannot be parsed as a bracketed
integer list — or the LLM client is absent, or the candidate list is empty,
or the call failed — rerank returns the first topN pre-rerank results
unchanged (and, being a total function of these inputs, never throws). -/
theorem C6_rerank_fallback (hasClient : Bool) (results : List RetrievalResult)
    (topN : Nat) (response : Option String)
    (h : hasClient = false ∨ results = [] ∨ response = none ∨
      (∃ t, response = some t ∧ extractRanking t = none)) :
    rerank hasClient results topN response = results.take topN := by
  rcases h with h | h | h | ⟨t, ht, he⟩
  · subst h; simp [rerank]
  · subst h; simp [rerank]
  · subst h
    simp only [rerank]
    split
    · rfl
    · rfl
  · subst ht
    simp only [rerank]
    split
    · rfl
    · simp [he]

/-- Witness for C6 at a concrete unparsable response. -/
theorem C6_rerank_fallback_witness :
    rerank true [sampleResult "D1", sampleResult "D2"] 1 (some "no brackets") =
      [sampleResult "D1"] := by
  have h := C6_rerank_fallback true [sampleResult "D1", sampleResult "D2"] 1
    (some "no brackets")
    (Or.inr (Or.inr (Or.inr ⟨"no brackets", rfl, by decide⟩)))
  simpa using h

/-- C8 (amended): every collection-bound Vector Store operation
(addDocuments, updateDocuments, deleteDocuments, deleteByFilePath, query,
getDocumentsByFilePath, getDocumentCount) raises the not-initialized error
before initialize() has succeeded, and initialize() is an idempotent no-op
after a successful call — but listCollections and deleteCollection are
direct client calls performed without the initialization check. -/
theorem C8_amended_not_initialized_and_idempotent :
    (∀ (s : VSState), s.inited = false →
      (∀ uuids docs, vsAddDocuments uuids s docs = .error .notInited) ∧
      (∀ ids docs, vsUpdateDocuments s ids docs = .error .notInited) ∧
      (∀ ids, vsDeleteDocuments s ids = .error .notInited) ∧
      (∀ p, vsDeleteByFilePath s p = .error .notInited) ∧
      (∀ now dist topK, vsQuery now dist s topK = .error .notInited) ∧
      (∀ now p, vsGetDocumentsByFilePath now s p = .error .notInited) ∧
      vsGetDocumentCount s = .error .notInited) ∧
    (∀ colls s, vsListCollections true colls s = .ok colls) ∧
    (∀ s, vsDeleteCollection true s =
      .ok { inited := false, hasCollection := false, records := [] }) ∧
    (∀ ok₁ (s s' : VSState), vsInit ok₁ s = .ok s' → ∀ ok₂, vsInit ok₂ s' = .ok s') := by
  refine ⟨?_, fun _ _ => rfl, fun _ => rfl, ?_⟩
  · intro s hs
    have he : ensureInit s = .error .notInited := by
      simp [ensureInit, hs]
    exact ⟨fun _ _ => by simp [vsAddDocuments, he, Bind.bind, Except.bind],
      fun _ _ => by simp [vsUpdateDocuments, he, Bind.bind, Except.bind],
      fun _ => by simp [vsDeleteDocuments, he, Bind.bind, Except.bind],
      fun _ => by simp [vsDeleteByFilePath, he, Bind.bind, Except.bind],
      fun _ _ _ => by simp [vsQuery, he, Bind.bind, Except.bind],
      fun _ _ => by simp [vsGetDocumentsByFilePath, he, Bind.bind, Except.bind],
      by simp [vsGetDocumentCount, he, Bind.bind, Except.bind]⟩
  · intro ok₁ s s' h ok₂
    have hi : s'.inited = true := by
      by_cases h₁ : s.inited
      · simp [vsInit, h₁] at h
        rw [← h]; exact h₁
      · by_cases h₂ : ok₁ = true
        · simp [vsInit, h₁, h₂] at h
          rw [← h]
        · simp [vsInit, h₁, h₂] at h
    simp [vsInit, hi]

/-- Witness for C8 at the fresh store. -/
theorem C8_amended_witness :
    vsGetDocumentCount vsInitial = .error .notInited ∧
    vsInit false ⟨true, true, []⟩ = .ok ⟨true, true, []⟩ := by
  constructor
  · exact (C8_amended_not_initialized_and_idempotent.1 vsInitial rfl).2.2.2.2.2.2
  · exact C8_amended_not_initialized_and_idempotent.2.2.2 true vsInitial
      ⟨true, true, []⟩ rfl false

/-- C10: a declared content-length exceeding the ceiling fails the fetch
with the size-limit error before the staging file is created; when the
declared length passes (or is absent) the downloaded size is re-checked
against the same ceiling; and the staging file never survives the call on
any path. -/
theorem C10_pdf_size_guards :
    (∀ (env : FetchEnv) (maxSizeMB : ℚ) (n : Nat),
      env.urlValid = true → env.responseOk = true → env.contentLength = some n →
      (n : ℚ) / (1024 * 1024) > maxSizeMB →
      fetchAndParse env maxSizeMB = (.error .tooLargeDeclared, ⟨false, false⟩)) ∧
    (∀ (env : FetchEnv) (maxSizeMB : ℚ),
      env.urlValid = true → env.responseOk = true →
      (∀ n, env.contentLength = some n → ¬((n : ℚ) / (1024 * 1024) > maxSizeMB)) →
      env.hasBody = true → env.streamOk = true →
      (env.actualSize : ℚ) / (1024 * 1024) > maxSizeMB →
      fetchAndParse env maxSizeMB = (.error .tooLargeActual, ⟨true, false⟩)) ∧
    (∀ env maxSizeMB, (fetchAndParse env maxSizeMB).2.existsAfter = false) := by
  refine ⟨?_, ?_, ?_⟩
  · intro env maxSizeMB n hu hr hc hgt
    simp [fetchAndParse, hu, hr, hc, hgt]
  · intro env maxSizeMB hu hr hc hb hs hgt
    have hcl : (match env.contentLength with
        | some sizeBytes => decide ((sizeBytes : ℚ) / (1024 * 1024) > maxSizeMB)
        | none => false) = false := by
      cases h : env.contentLength with
      | none => rfl
      | some n => simpa using hc n h
    simp [fetchAndParse, hu, hr, hcl, hb, hs, hgt]
  · intro env maxSizeMB
    by_cases hu : env.urlValid
    · simp [fetchAndParse, hu]
    · simp [fetchAndParse, hu]

/-- Witness for C10: a 60 MiB declared content-length against the default
50 MB ceiling fails before the staging file exists. -/
theorem C10_pdf_size_guards_witness :
    fetchAndParse ⟨true, true, some 62914560, true, true, 0, true⟩ 50 =
      (.error .tooLargeDeclared, ⟨false, false⟩) :=
  C10_pdf_size_guards.1 ⟨true, true, some 62914560, true, true, 0, true⟩ 50
    62914560 rfl rfl rfl (by norm_num)

/-- C3 (amended): chunks produced by file-ingestion chunking carry exactly
their own text's content hash, while every chunk prepared by the PDF
ingestion path carries the hash of the whole parsed PDF text instead. -/
theorem C3_amended_chunk_hashes :
    (∀ (hash : String → String) (pat : String → Bool) (now : String)
       (cs co : Nat) (content filePath fileName fileType : String)
       (projectName : Option String),
      ∀ c ∈ chunkDocument hash pat now cs co content filePath fileName fileType
        projectName, c.metadata.hash = hash c.content) ∧
    (∀ (hash : String → String) (now : String) (cs co : Nat)
       (pdfText : String) (pages : List PDFPage) (url documentName : String)
       (projectName title author : Option String),
      ∀ c ∈ pdfIngestChunks hash now cs co pdfText pages url documentName
        projectName title author, c.metadata.hash = hash pdfText) := by
  constructor
  · intro hash pat now cs co content filePath fileName fileType projectName c hc
    simp only [chunkDocument, List.mem_map] at hc
    obtain ⟨p, _, rfl⟩ := hc
    rfl
  · intro hash now cs co pdfText pages url documentName projectName title author c hc
    simp only [pdfIngestChunks, List.mem_map] at hc
    obtain ⟨p, _, rfl⟩ := hc
    rfl

/-- The single chunk the file path produces for content "x" (hash
instantiated with the identity function). -/
def c3SampleChunk : DocumentChunk :=
  { id := "/a.txt:0"
    content := "x"
    metadata :=
      { filePath := "/a.txt", fileName := "a.txt", fileType := ".txt",
        language := none, chunkIndex := 0, totalChunks := 1,
        startLine := some 1, endLine := some 1, createdAt := "t",
        updatedAt := "t", hash := "x", projectName := none, tags := none }
    tokenCount := 1 }

/-- Witness for C3 at a concrete file chunk. -/
theorem C3_amended_chunk_hashes_witness :
    c3SampleChunk.metadata.hash = (fun s : String => s) c3SampleChunk.content :=
  C3_amended_chunk_hashes.1 (fun s => s) (fun _ => false) "t" 1000 200 "x"
    "/a.txt" "a.txt" ".txt" none c3SampleChunk (by decide)

/-- The metadata values that survive the flatten/unflatten round trip:
optional fields must not hold the flattened placeholder values (empty
string / zero), timestamps must be nonempty, and the tags list — which is
joined with commas — must be a nonempty list of nonempty comma-free tags. -/
def MetadataRoundTrippable (m : DocumentMetadata) : Prop :=
  m.language ≠ some "" ∧ m.totalChunks ≠ 0 ∧ m.startLine ≠ some 0 ∧
  m.endLine ≠ some 0 ∧ m.createdAt ≠ "" ∧ m.updatedAt ≠ "" ∧
  m.projectName ≠ some "" ∧ m.tags ≠ some [] ∧
  (∀ t ∈ m.tags.getD [], t ≠ "" ∧ ',' ∉ t.toList)

/-- Rebuilding a string from its characters is the identity. -/
theorem mkToList (s : String) : String.mk s.toList = s := by
  cases s
  rfl

/-- C9 (amended): flattening then unflattening is the identity exactly on
well-formed metadata — absent-able fields not holding their flattened
placeholder values, and tags a nonempty list of nonempty comma-free tags
(a comma inside a tag, an empty tags list, a zero line number or an empty
timestamp do not survive, as the counterexample shows). -/
theorem C9_amended_roundtrip (now : String) (m : DocumentMetadata)
    (h : MetadataRoundTrippable m) :
    unflattenMetadata now (flattenMetadata m) = m := by
  obtain ⟨h1, h2, h3, h4, h5, h6, h7, h8, h9⟩ := h
  obtain ⟨fp, fn, ft, lang, ci, tc, sl, el, ca, ua, hs, pn, tags⟩ := m
  simp only [Option.getD] at h9
  simp only [flattenMetadata, unflattenMetadata, DocumentMetadata.mk.injEq,
    true_and, and_true]
  refine ⟨?_, ?_, ?_, ?_, ?_, ?_, ?_, ?_⟩
  · -- language
    cases lang with
    | none => simp
    | some l =>
        have : l ≠ "" := fun hl => h1 (by simp [hl])
        simp [this]
  · -- totalChunks
    simp [h2]
  · -- startLine
    cases sl with
    | none => simp
    | some n =>
        have : n ≠ 0 := fun hn => h3 (by simp [hn])
        simp [this]
  · -- endLine
    cases el with
    | none => simp
    | some n =>
        have : n ≠ 0 := fun hn => h4 (by simp [hn])
        simp [this]
  · -- createdAt
    simp [h5]
  · -- updatedAt
    simp [h6]
  · -- projectName
    cases pn with
    | none => simp
    | some p =>
        have : p ≠ "" := fun hp => h7 (by simp [hp])
        simp [this]
  · -- tags
    cases tags with
    | none => simp
    | some ts =>
        have hts : ts ≠ [] := fun hts => h8 (by simp [hts])
        have hx : ∀ l ∈ ts.map String.toList, ',' ∉ l := by
          intro l hl
          obtain ⟨t, ht, rfl⟩ := List.mem_map.mp hl
          exact (h9 t ht).2
        have hls : ts.map String.toList ≠ [] := by simpa using hts
        have hA : (List.intercalate [','] (ts.map String.toList)).splitOn ',' =
            ts.map String.toList := List.splitOn_intercalate (ts.map String.toList) ',' hx hls
        have hjoin : jsJoin ',' ts ≠ "" := by
          intro hj
          have hL : List.intercalate [','] (ts.map String.toList) = [] := by
            have := congrArg String.toList hj
            simpa [jsJoin] using this
          rw [hL] at hA
          have h0 : (([] : List Char).splitOn ',') = [[]] := by decide
          rw [h0] at hA
          cases ts with
          | nil => exact hts rfl
          | cons t rest =>
              simp only [List.map, List.cons.injEq] at hA
              obtain ⟨hA1, hA2⟩ := hA
              have ht0 : t = "" := by
                have hmk := congrArg String.mk hA1
                rw [mkToList] at hmk
                exact hmk.symm
              exact (h9 t (by simp)).1 ht0
        have hsplit : jsSplit ',' (jsJoin ',' ts) = ts := by
          simp only [jsSplit, jsJoin, mkToList]
          have : (String.mk (List.intercalate [','] (ts.map String.toList))).toList =
              List.intercalate [','] (ts.map String.toList) := rfl
          rw [this, hA, List.map_map]
          have : (fun cs => String.mk cs) ∘ String.toList = id := by
            funext s
            exact mkToList s
          rw [this, List.map_id]
        have hfilter : ts.filter (fun t => t ≠ "") = ts := by
          rw [List.filter_eq_self]
          intro t ht
          simpa using (h9 t ht).1
        simp only [Option.map_some', Option.getD_some]
        rw [if_neg hjoin, hsplit, hfilter]

/-- Witness for C9 at concrete well-formed metadata. -/
theorem C9_amended_roundtrip_witness :
    unflattenMetadata "NOW" (flattenMetadata
      { sampleMetadata with tags := some ["x", "y"] }) =
      { sampleMetadata with tags := some ["x", "y"] } :=
  C9_amended_roundtrip "NOW" { sampleMetadata with tags := some ["x", "y"] }
    ⟨by decide, by decide, by decide, by decide, by decide, by decide, by decide,
     by decide, by decide⟩

/-- The fixed three-task fallback plan createPlan builds when the planning
response contains no brace-delimited block. -/
def fallbackPlan3 (uuids : Nat → String) : OrchestratorPlan :=
  { tasks := tasksOfSteps uuids fallbackSteps3
    strategy := .str "sequential"
    estimatedSteps := fallbackSteps3.length }

/-- C7 (amended): when the planning response contains no brace-delimited
block at all, createPlan returns a valid sequential 3-task plan
(retrieve, analyze, synthesize — task types query/analyze/synthesize), all
tasks pending; executing that plan with zero retrieved documents completes
every task — the analyze task is skipped (the analyzer outcome is never
consulted) but still marked completed, and no analysis is recorded.  (When
the response does contain a brace block that fails to parse, the catch
branch instead yields a 2-task plan, per the counterexample.) -/
theorem C7_amended_plan_fallback_and_empty_execution :
    (∀ (uuids : Nat → String) (response : String),
      findBraceMatch response = none →
      createPlan uuids response = .ok (fallbackPlan3 uuids) ∧
      (fallbackPlan3 uuids).tasks.map (fun t => t.taskType) =
        [.query, .analyze, .synthesize] ∧
      (fallbackPlan3 uuids).tasks.map (fun t => t.status) =
        [.pending, .pending, .pending] ∧
      (fallbackPlan3 uuids).strategy = .str "sequential" ∧
      (fallbackPlan3 uuids).estimatedSteps = 3) ∧
    (∀ (uuids : Nat → String) (now : String)
       (analyzerOutcome : Except String Unit),
      ((executePlan 10 now (.ok (some [])) analyzerOutcome
          (fallbackPlan3 uuids)).1.map (fun t => t.status) =
        [.completed, .completed, .completed]) ∧
      (executePlan 10 now (.ok (some []))
        analyzerOutcome (fallbackPlan3 uuids)).2.2.1 = none) := by
  constructor
  · intro uuids response h
    refine ⟨?_, ?_, ?_, rfl, rfl⟩
    · simp [createPlan, h, fallbackPlan3]
    · simp [fallbackPlan3, tasksOfSteps, fallbackSteps3, List.enum,
        taskTypeOfAgent, jsonIsStr]
    · simp [fallbackPlan3, tasksOfSteps, fallbackSteps3, List.enum]
  · intro uuids now analyzerOutcome
    constructor
    · simp [executePlan, execGo, fallbackPlan3, tasksOfSteps, fallbackSteps3,
        List.enum, taskTypeOfAgent, jsonIsStr, completeTask]
    · simp [executePlan, execGo, fallbackPlan3, tasksOfSteps, fallbackSteps3,
        List.enum, taskTypeOfAgent, jsonIsStr, completeTask]

/-- Witness for C7 at a braceless response. -/
theorem C7_amended_witness :
    createPlan (fun _ => "t") "plain text" = .ok (fallbackPlan3 (fun _ => "t")) ∧
    (executePlan 10 "T" (.ok (some [])) (.ok ())
      (fallbackPlan3 (fun _ => "t"))).1.map (fun t => t.status) =
      [.completed, .completed, .completed] :=
  ⟨(C7_amended_plan_fallback_and_empty_execution.1 (fun _ => "t") "plain text"
      (by decide)).1,
   (C7_amended_plan_fallback_and_empty_execution.2 (fun _ => "t") "T" (.ok ())).1⟩

/-- Splitting a string into lines never yields an empty list. -/
theorem toLineInfosNeNil (content : String) : toLineInfos content ≠ [] := by
  intro h
  simp only [toLineInfos, jsSplit, List.map_eq_nil, List.enum_eq_nil] at h
  exact List.splitOnP_ne_nil _ _ (by simpa [List.splitOn] using h)

/-- The chunkText loop returns at least one chunk whenever it has pending
lines, an open chunk or closed chunks. -/
theorem chunkTextGoNeNil (cs co : Nat) :
    ∀ (lines cur : List LineInfo) (size start : Nat) (acc : List RawChunk),
      lines ≠ [] ∨ cur ≠ [] ∨ acc ≠ [] →
      chunkTextGo cs co lines cur size start acc ≠ [] := by
  intro lines
  induction lines with
  | nil =>
      intro cur size start acc h
      simp only [chunkTextGo]
      by_cases hc : cur.isEmpty
      · rw [if_pos hc]
        rcases h with h | h | h
        · exact absurd rfl h
        · exact absurd (List.isEmpty_iff.mp hc) h
        · exact h
      · rw [if_neg hc]
        simp
  | cons l rest ih =>
      intro cur size start acc _
      simp only [chunkTextGo]
      split
      · exact ih _ _ _ _ (Or.inr (Or.inr (by simp)))
      · exact ih _ _ _ _ (Or.inr (Or.inl (by simp)))

/-- The chunkMarkdown loop returns at least one chunk under the same
condition. -/
theorem chunkMarkdownGoNeNil (cs co : Nat) :
    ∀ (lines cur : List LineInfo) (size start : Nat) (inCB : Bool)
      (acc : List RawChunk),
      lines ≠ [] ∨ cur ≠ [] ∨ acc ≠ [] →
      chunkMarkdownGo cs co lines cur size start inCB acc ≠ [] := by
  intro lines
  induction lines with
  | nil =>
      intro cur size start inCB acc h
      simp only [chunkMarkdownGo]
      by_cases hc : cur.isEmpty
      · rw [if_pos hc]
        rcases h with h | h | h
        · exact absurd rfl h
        · exact absurd (List.isEmpty_iff.mp hc) h
        · exact h
      · rw [if_neg hc]
        simp
  | cons l rest ih =>
      intro cur size start inCB acc _
      simp only [chunkMarkdownGo]
      repeat' split
      all_goals (apply ih; simp)

/-- The chunkCode loop returns at least one chunk under the same
condition. -/
theorem chunkCodeGoNeNil (cs co : Nat) (boundaries : List Nat) :
    ∀ (lines : List LineInfo) (i : Nat) (cur : List LineInfo)
      (size start : Nat) (acc : List RawChunk),
      lines ≠ [] ∨ cur ≠ [] ∨ acc ≠ [] →
      chunkCodeGo cs co boundaries lines i cur size start acc ≠ [] := by
  intro lines
  induction lines with
  | nil =>
      intro i cur size start acc h
      simp only [chunkCodeGo]
      by_cases hc : cur.isEmpty
      · rw [if_pos hc]
        rcases h with h | h | h
        · exact absurd rfl h
        · exact absurd (List.isEmpty_iff.mp hc) h
        · exact h
      · rw [if_neg hc]
        simp
  | cons l rest ih =>
      intro i cur size start acc _
      simp only [chunkCodeGo]
      repeat' split
      all_goals (apply ih; simp)

/-- chunkText never returns the empty list. -/
theorem chunkTextNeNil (cs co : Nat) (content : String) :
    chunkText cs co content ≠ [] :=
  chunkTextGoNeNil cs co _ _ _ _ _ (Or.inl (toLineInfosNeNil content))

/-- chunkMarkdown never returns the empty list. -/
theorem chunkMarkdownNeNil (cs co : Nat) (content : String) :
    chunkMarkdown cs co content ≠ [] :=
  chunkMarkdownGoNeNil cs co _ _ _ _ _ _ (Or.inl (toLineInfosNeNil content))

/-- chunkCode never returns the empty list, under any boundary pattern. -/
theorem chunkCodeNeNil (pat : String → Bool) (cs co : Nat) (content : String) :
    chunkCode pat cs co content ≠ [] := by
  simp only [chunkCode]
  split
  · exact chunkCodeGoNeNil cs co _ _ _ _ _ _ _ (Or.inl (toLineInfosNeNil content))
  · exact chunkTextNeNil cs co content

/-- C2 (amended): chunkDocument returns at least one chunk for every input
(any content, file type, sizes, and boundary pattern), and exactly one
empty-content chunk for empty content at the spec's example; but
chunkPDFDocument without page structure returns the EMPTY list for empty
content, not a single empty chunk (see the counterexample). -/
theorem C2_amended_chunking_nonempty :
    (∀ (hash : String → String) (pat : String → Bool) (now : String)
       (cs co : Nat) (content filePath fileName fileType : String)
       (projectName : Option String),
      1 ≤ (chunkDocument hash pat now cs co content filePath fileName fileType
        projectName).length) ∧
    (∀ (hash : String → String) (pat : String → Bool) (now : String),
      (chunkDocument hash pat now 1000 200 "" "/test/empty.txt" "empty.txt"
        ".txt" none).map (fun c => c.content) = [""]) ∧
    (∀ (hash : String → String) (now : String) (cs co : Nat)
       (sourcePath documentName : String) (projectName : Option String),
      chunkPDFDocument hash now cs co "" sourcePath documentName projectName
        none = []) := by
  refine ⟨?_, ?_, ?_⟩
  · intro hash pat now cs co content filePath fileName fileType projectName
    simp only [chunkDocument, List.length_map, List.enum_length]
    have hne : (if isCodeFile fileType then chunkCode pat cs co content
        else if isMarkdownFile fileType then chunkMarkdown cs co content
        else chunkText cs co content) ≠ [] := by
      split
      · exact chunkCodeNeNil pat cs co content
      · split
        · exact chunkMarkdownNeNil cs co content
        · exact chunkTextNeNil cs co content
    have := List.length_pos.mpr hne
    omega
  · intro hash pat now
    have h1 : isCodeFile ".txt" = false := by decide
    have h2 : isMarkdownFile ".txt" = false := by decide
    have h3 : chunkText 1000 200 "" = [⟨"", 1, 1⟩] := by decide
    simp [chunkDocument, h1, h2, h3, List.enum]
  · intro hash now cs co sourcePath documentName projectName
    have hsp : (splitParagraphs "").filter (fun p => jsTrim p ≠ "") = [] := by decide
    have htr : jsTrim "" = "" := by decide
    simp [chunkPDFDocument, chunkPDFDocument.chunkPDFDocumentText, chunkPDFText,
      hsp, chunkPDFTextGo, htr]

/-- Every entry of an upserted score map is either the upserted key's entry
or an untouched entry of the original map. -/
theorem fusionUpsertMem (id : String) (res : RetrievalResult) (δ : ℚ) :
    ∀ (m : List FusionEntry), ∀ e ∈ fusionUpsert id res δ m, e.key = id ∨ e ∈ m := by
  intro m
  induction m with
  | nil =>
      intro e he
      simp only [fusionUpsert, List.mem_singleton] at he
      subst he
      exact Or.inl rfl
  | cons f fs ih =>
      intro e he
      by_cases hf : f.key = id
      · simp only [fusionUpsert, if_pos hf] at he
        rcases List.mem_cons.mp he with h | h
        · subst h
          exact Or.inl hf
        · exact Or.inr (List.mem_cons_of_mem _ h)
      · simp only [fusionUpsert, if_neg hf] at he
        rcases List.mem_cons.mp he with h | h
        · subst h
          exact Or.inr (List.mem_cons_self _ _)
        · rcases ih e h with h' | h'
          · exact Or.inl h'
          · exact Or.inr (List.mem_cons_of_mem _ h')

/-- After upserting δ ≤ D onto a map whose entries for the key are bounded
by B, the key's entry is bounded by B + D. -/
theorem fusionUpsertKeyBound (id : String) (res : RetrievalResult) (δ B D : ℚ)
    (hB : 0 ≤ B) (hD : 0 ≤ D) (hδ : δ ≤ D) :
    ∀ (m : List FusionEntry), (∀ e' ∈ m, e'.key = id → e'.score ≤ B) →
      ∀ e ∈ fusionUpsert id res δ m, e.key = id → e.score ≤ B + D := by
  intro m
  induction m with
  | nil =>
      intro _ e he _
      simp only [fusionUpsert, List.mem_singleton] at he
      subst he
      show δ ≤ B + D
      linarith
  | cons f fs ih =>
      intro h2 e he hk
      by_cases hf : f.key = id
      · simp only [fusionUpsert, if_pos hf] at he
        rcases List.mem_cons.mp he with h | h
        · subst h
          show f.score + δ ≤ B + D
          have := h2 f (List.mem_cons_self _ _) hf
          linarith
        · have := h2 e (List.mem_cons_of_mem _ h) hk
          linarith
      · simp only [fusionUpsert, if_neg hf] at he
        rcases List.mem_cons.mp he with h | h
        · subst h
          exact absurd hk hf
        · exact ih (fun e' he' => h2 e' (List.mem_cons_of_mem _ he')) e h hk

/-- The weighted reciprocal-rank pass over one duplicate-free list raises
every accumulated score by at most w / 61: entries start below B + w/61,
entries that can still be hit stay below B, and each can be hit at most
once. -/
theorem fusionAddBound (w B : ℚ) (hw : 0 ≤ w) (hB : 0 ≤ B) :
    ∀ (items : List RetrievalResult) (rank : Nat) (m : List FusionEntry),
      (items.map (fun r => r.document.id)).Nodup →
      (∀ e ∈ m, e.score ≤ B + w / 61) →
      (∀ e ∈ m, e.key ∈ items.map (fun r => r.document.id) → e.score ≤ B) →
      ∀ e ∈ fusionAdd w rank items m, e.score ≤ B + w / 61 := by
  intro items
  induction items with
  | nil =>
      intro rank m _ h1 _ e he
      simp only [fusionAdd] at he
      exact h1 e he
  | cons r rs ih =>
      intro rank m hnd h1 h2 e he
      simp only [fusionAdd] at he
      have hc : (0:ℚ) < 60 + (rank:ℚ) + 1 := by positivity
      have hδpos : (0:ℚ) ≤ w / (60 + (rank:ℚ) + 1) := by positivity
      have hδ : w / (60 + (rank:ℚ) + 1) ≤ w / 61 := by
        rw [div_le_div_iff hc (by norm_num)]
        have h0 : (0:ℚ) ≤ (rank:ℚ) := Nat.cast_nonneg _
        nlinarith
      have hw61 : (0:ℚ) ≤ w / 61 := by positivity
      have hnd' : (rs.map (fun r => r.document.id)).Nodup :=
        (List.nodup_cons.mp (by simpa using hnd)).2
      have hnotin : r.document.id ∉ rs.map (fun r => r.document.id) :=
        (List.nodup_cons.mp (by simpa using hnd)).1
      have h2head : ∀ e' ∈ m, e'.key = r.document.id → e'.score ≤ B := by
        intro e' he' hk
        exact h2 e' he' (by simp [hk])
      have h1' : ∀ e' ∈ fusionUpsert r.document.id r (w / (60 + (rank:ℚ) + 1)) m,
          e'.score ≤ B + w / 61 := by
        intro e' he'
        by_cases hk : e'.key = r.document.id
        · exact fusionUpsertKeyBound r.document.id r _ B (w / 61) hB hw61 hδ m
            h2head e' he' hk
        · rcases fusionUpsertMem _ _ _ m e' he' with h | h
          · exact absurd h hk
          · exact h1 e' h
      have h2' : ∀ e' ∈ fusionUpsert r.document.id r (w / (60 + (rank:ℚ) + 1)) m,
          e'.key ∈ rs.map (fun r => r.document.id) → e'.score ≤ B := by
        intro e' he' hkin
        rcases fusionUpsertMem _ _ _ m e' he' with h | h
        · rw [h] at hkin
          exact absurd hkin hnotin
        · refine h2 e' h ?_
          simp only [List.map_cons]
          exact List.mem_cons_of_mem _ hkin
      exact ih (rank + 1) _ hnd' h1' h2' e he

/-- Insertion into the descending sort preserves membership. -/
theorem insertByScoreDescMem (x : FusionEntry) :
    ∀ (l : List FusionEntry) (e : FusionEntry),
      e ∈ insertByScoreDesc x l → e = x ∨ e ∈ l := by
  intro l
  induction l with
  | nil =>
      intro e he
      simp only [insertByScoreDesc, List.mem_singleton] at he
      exact Or.inl he
  | cons f fs ih =>
      intro e he
      simp only [insertByScoreDesc] at he
      split at he
      · rcases List.mem_cons.mp he with h | h
        · subst h
          exact Or.inr (List.mem_cons_self _ _)
        · rcases ih e h with h' | h'
          · exact Or.inl h'
          · exact Or.inr (List.mem_cons_of_mem _ h')
      · rcases List.mem_cons.mp he with h | h
        · exact Or.inl h
        · exact Or.inr h

/-- The stable descending sort preserves membership. -/
theorem sortByScoreDescMem :
    ∀ (l : List FusionEntry) (e : FusionEntry), e ∈ sortByScoreDesc l → e ∈ l := by
  intro l
  induction l with
  | nil =>
      intro e he
      simpa [sortByScoreDesc] using he
  | cons f fs ih =>
      intro e he
      simp only [sortByScoreDesc] at he
      rcases insertByScoreDescMem f _ e he with h | h
      · subst h
        exact List.mem_cons_self _ _
      · exact List.mem_cons_of_mem _ (ih e h)

/-- C4: every fused score is at most (semanticWeight + keywordWeight) / 61
(each duplicate-free list contributes at most weight/(60+0+1) per
document), and consequently — with the schema defaults: hybrid search on,
weights 0.7/0.3, minScore 0.7 — retrieve's minimum-score filter removes
every fused result, so a cache-missing retrieve returns the empty list for
every query that does not override minScore. -/
theorem C4_rrf_bound_and_default_retrieve_empty :
    (∀ (semanticResults keywordResults : List RetrievalResult)
       (semanticWeight keywordWeight : ℚ) (topK : Nat),
      0 ≤ semanticWeight → 0 ≤ keywordWeight →
      (semanticResults.map (fun r => r.document.id)).Nodup →
      (keywordResults.map (fun r => r.document.id)).Nodup →
      ∀ r ∈ reciprocalRankFusion semanticResults keywordResults semanticWeight
        keywordWeight topK,
        r.score ≤ (semanticWeight + keywordWeight) / 61) ∧
    (∀ (q : RetrievalQuery) (hasClient : Bool) (response : Option String)
       (semanticList keywordList semanticOnly : List RetrievalResult),
      q.minScore = none →
      (semanticList.map (fun r => r.document.id)).Nodup →
      (keywordList.map (fun r => r.document.id)).Nodup →
      retrieve defaultRetrievalConfig hasClient response none q
        semanticList keywordList semanticOnly = []) := by
  have bound : ∀ (sem kw : List RetrievalResult) (sw kwt : ℚ) (topK : Nat),
      0 ≤ sw → 0 ≤ kwt →
      (sem.map (fun r => r.document.id)).Nodup →
      (kw.map (fun r => r.document.id)).Nodup →
      ∀ r ∈ reciprocalRankFusion sem kw sw kwt topK,
        r.score ≤ (sw + kwt) / 61 := by
    intro sem kw sw kwt topK hsw hkwt hnds hndk r hr
    simp only [reciprocalRankFusion, List.mem_map] at hr
    obtain ⟨e, he, rfl⟩ := hr
    have he1 : e ∈ sortByScoreDesc (fusionAdd kwt 0 kw (fusionAdd sw 0 sem [])) :=
      List.mem_of_mem_take he
    have he2 := sortByScoreDescMem _ _ he1
    have hkw61 : (0:ℚ) ≤ kwt / 61 := by positivity
    have hsw61 : (0:ℚ) ≤ sw / 61 := by positivity
    have p1 := fusionAddBound sw 0 hsw le_rfl sem 0 [] hnds
      (by intro e' he'; simp at he') (by intro e' he'; simp at he')
    have p2 := fusionAddBound kwt (sw / 61) hkwt hsw61 kw 0 _ hndk
      (fun e' he' => by have := p1 e' he'; linarith)
      (fun e' he' _ => by have := p1 e' he'; linarith)
    have hb := p2 e he2
    show e.score ≤ (sw + kwt) / 61
    have heq : sw / 61 + kwt / 61 = (sw + kwt) / 61 := div_add_div_same sw kwt 61
    linarith
  refine ⟨bound, ?_⟩
  intro q hasClient response semanticList keywordList semanticOnly hmin hnds hndk
  simp only [retrieve, defaultRetrievalConfig, hmin, Option.getD_none, if_true]
  have hfil : ∀ (res : List RetrievalResult),
      (∀ r ∈ res, r.score ≤ (1 : ℚ) / 61) →
      res.filter (fun r => decide (r.score ≥ (7/10 : ℚ))) = [] := by
    intro res h
    rw [List.filter_eq_nil]
    intro r hr
    have := h r hr
    simp only [decide_eq_true_eq, not_le, ge_iff_le]
    linarith
  have hbq : ∀ r ∈ reciprocalRankFusion semanticList keywordList (7/10) (3/10)
      (q.topK.getD 10), r.score ≤ (1 : ℚ) / 61 := by
    intro r hr
    have := bound semanticList keywordList (7/10) (3/10) (q.topK.getD 10)
      (by norm_num) (by norm_num) hnds hndk r hr
    have h710 : ((7:ℚ)/10 + 3/10) / 61 = 1 / 61 := by norm_num
    linarith
  rw [hfil _ hbq]
  split
  · simp [rerank]
  · rfl

/-- Witness for C4: under the default configuration a cache-missing
retrieve returns no results even with nonempty search lists. -/
theorem C4_rrf_bound_witness :
    retrieve defaultRetrievalConfig true none none
      ⟨"q", none, none, none⟩ [sampleResult "D1"] [sampleResult "D2"] [] = [] :=
  C4_rrf_bound_and_default_retrieve_empty.2 ⟨"q", none, none, none⟩ true none
    [sampleResult "D1"] [sampleResult "D2"] [] rfl (by decide) (by decide)
